import Mathlib

/-!
Shallow embedding of the two pipeline scripts of this repository,
`generate_fwd_list.py` and `src/domain_processor.py`.  Both scripts share a
fetch → strip-comments → base64-decode → extract-domains → resolve → render →
write pipeline; they differ in the line-skip set of `extract_domains`
(`domain_processor.py` additionally skips `@` lines and rejects domains
containing `localhost`), in the resolver transport, and in rendering
constants.  Strings are modeled as Lean `String`/`List Char` (Python strings
are sequences of code points, so this is exact); the source only ever feeds
ASCII-relevant data through the character classes below, and the comments on
each definition note where a Python library function is modeled for the
inputs reachable in this program.
-/

namespace Pipeline

/-! ### Character classes of the source regexes (all ASCII) -/

/-- The class `[a-zA-Z0-9-]` from the domain regex in `extract_domains`. -/
def isC1 (c : Char) : Bool :=
  decide ((65 ≤ c.toNat ∧ c.toNat ≤ 90) ∨ (97 ≤ c.toNat ∧ c.toNat ≤ 122) ∨
    (48 ≤ c.toNat ∧ c.toNat ≤ 57) ∨ c.toNat = 45)

/-- The class `[a-zA-Z0-9-.]` from the domain regex in `extract_domains`. -/
def isC2 (c : Char) : Bool := isC1 c || c.toNat = 46

/-- `\d` of the dotted-quad regex.  Python `\d` also matches non-ASCII
digits; every string this program tests is produced from ASCII or from DoH
`data` fields, and we model the ASCII digits `0-9`. -/
def isDigitCh (c : Char) : Bool := decide (48 ≤ c.toNat ∧ c.toNat ≤ 57)

/-- Whitespace stripped by Python `str.strip()` (ASCII part: space, `\t`,
`\n`, `\v`, `\f`, `\r`; the Unicode spaces are not modeled). -/
def isPySpace (c : Char) : Bool := decide (c.toNat = 32 ∨ (9 ≤ c.toNat ∧ c.toNat ≤ 13))

/-- Python `str.lower()` on one character; the source lowercases only regex
matches, which are ASCII, and on ASCII `str.lower()` is exactly the core
`Char.toLower` (`A`-`Z` shifted by 32). -/
def pyToLower (c : Char) : Char := Char.toLower c

/-- Python `str.lower()` on a list of characters. -/
def pyLower (cs : List Char) : List Char := cs.map pyToLower

/-- Python `str.strip()`: drop leading and trailing whitespace. -/
def pyStrip (cs : List Char) : List Char :=
  ((cs.dropWhile isPySpace).reverse.dropWhile isPySpace).reverse

/-- Python `str.splitlines()`: split at `\n`, `\r\n` or `\r`, with no
trailing empty line (the rarer Unicode line boundaries are not modeled;
the decoded list data is newline separated). -/
def splitlinesAux : List Char → List Char → List (List Char)
  | [], acc => if acc.isEmpty then [] else [acc.reverse]
  | '\r' :: '\n' :: rest, acc => acc.reverse :: splitlinesAux rest []
  | '\n' :: rest, acc => acc.reverse :: splitlinesAux rest []
  | '\r' :: rest, acc => acc.reverse :: splitlinesAux rest []
  | c :: rest, acc => splitlinesAux rest (c :: acc)

/-- Python `str.splitlines()` on a `String`. -/
def pySplitlines (s : String) : List String :=
  (splitlinesAux s.data []).map String.mk

/-! ### The domain regex

`re.search(r'(?:\|\||\.(?:\*))?([a-zA-Z0-9-]+\.[a-zA-Z0-9-.]+|[a-zA-Z0-9-]+\.[a-zA-Z0-9-]+)', line)`

Python `re` is a backtracking engine: the match is at the leftmost starting
position, the optional prefix tries `||`, then `.*`, then empty, and inside
group 1 the first alternative `[a-zA-Z0-9-]+\.[a-zA-Z0-9-.]+` is tried
first with greedy `+`.  Since the second alternative's language is contained
in the first's, group 1 is always the first alternative's greedy match:
a maximal nonempty run of `isC1` characters, a literal dot, then a maximal
nonempty run of `isC2` characters (greedy `[a-zA-Z0-9-]+` must stop exactly
at a non-`isC1` character, which the regex then requires to be `.`). -/

/-- Group 1 of the regex matched at the start of `cs`, if it matches there. -/
def groupMatchAt (cs : List Char) : Option (List Char) :=
  if (cs.takeWhile isC1).isEmpty then none
  else
    match cs.drop (cs.takeWhile isC1).length with
    | '.' :: rest =>
      if (rest.takeWhile isC2).isEmpty then none
      else some (cs.takeWhile isC1 ++ '.' :: rest.takeWhile isC2)
    | _ => none

/-- The whole pattern matched at the start of `cs`: optional `||` or `.*`
prefix (tried first, backtracking to no prefix), then group 1.  Returns
group 1. -/
def matchAt (cs : List Char) : Option (List Char) :=
  match cs with
  | '|' :: '|' :: rest =>
    (match groupMatchAt rest with
     | some g => some g
     | none => groupMatchAt cs)
  | '.' :: '*' :: rest =>
    (match groupMatchAt rest with
     | some g => some g
     | none => groupMatchAt cs)
  | _ => groupMatchAt cs

/-- `re.search`: try every start position left to right, return group 1 of
the first match. -/
def reSearchAux : List Char → Option (List Char)
  | [] => none
  | c :: cs =>
    match matchAt (c :: cs) with
    | some g => some g
    | none => reSearchAux cs

/-! ### The dotted-quad check and substring membership -/

/-- Split a character list at every `.` (Python-style `split('.')`,
keeping empty segments). -/
def splitOnDot (cs : List Char) : List (List Char) :=
  cs.foldr
    (fun c acc =>
      if c = '.' then [] :: acc
      else
        match acc with
        | g :: gs => (c :: g) :: gs
        | [] => [[c]])
    [[]]

/-- `re.match(r'^\d{1,3}\.\d{1,3}\.\d{1,3}\.\d{1,3}$', s)`: exactly four
dot-separated groups of one to three digits. -/
def isQuadChars (cs : List Char) : Bool :=
  let parts := splitOnDot cs
  parts.length = 4 &&
    parts.all (fun p => decide (1 ≤ p.length) && decide (p.length ≤ 3) && p.all isDigitCh)

/-- The dotted-quad test on a `String`. -/
def isDottedQuad (s : String) : Bool := isQuadChars s.data

/-- `needle` is a prefix of `hay` (by characters). -/
def leadsWith : List Char → List Char → Bool
  | [], _ => true
  | _ :: _, [] => false
  | a :: as, b :: bs => a == b && leadsWith as bs

/-- Python's `needle in hay` substring test. -/
def containsSub (needle : List Char) : List Char → Bool
  | [] => leadsWith needle []
  | c :: rest => leadsWith needle (c :: rest) || containsSub needle rest

/-- The characters of the literal `'localhost'`. -/
def localhostChars : List Char := "localhost".data

/-! ### Sorted de-duplication

Both scripts accumulate domains in a Python `set` and return
`sorted(list(domains))`.  A run's set contents are exactly the distinct
accepted domains, so we model `set` + `sorted` as `dedup` + `mergeSort`;
Python sorts strings lexicographically by code point, which is the
`LinearOrder` on `String`. -/

/-- Lexicographic code-point comparison of character lists: exactly how
Python compares strings. -/
def charListLe : List Char → List Char → Bool
  | [], _ => true
  | _ :: _, [] => false
  | a :: as, b :: bs =>
    if a.toNat < b.toNat then true
    else if b.toNat < a.toNat then false
    else charListLe as bs

/-- Python string `<=`. -/
def strLeB (a b : String) : Bool := charListLe a.data b.data

/-- The string order as a relation, for sortedness statements. -/
def strOrd (a b : String) : Prop := strLeB a b = true

/-- Insert into a sorted list (one step of the sort). -/
def insertSorted (a : String) : List String → List String
  | [] => [a]
  | b :: t => if strLeB a b then a :: b :: t else b :: insertSorted a t

/-- Insertion sort by the Python string order; `sorted` on a duplicate-free
list is determined by the multiset and the (total, antisymmetric) order, so
any correct sort models it. -/
def sortStrings : List String → List String
  | [] => []
  | a :: t => insertSorted a (sortStrings t)

/-- `sorted(list(set(l)))`. -/
def sortedDedup (l : List String) : List String := sortStrings l.dedup

/-! ### Shared fetch-and-decode step

`fetch_and_decode_data` is textually identical in both scripts:
`requests.get`, `raise_for_status`, then
`re.sub(r'!.*\n', '', text)`, `base64.b64decode`, `.decode('utf-8')`;
any exception is caught and `None` is returned. -/

/-- Split a character list at every occurrence of `sep`, keeping empty
segments (like Python `str.split(sep)`). -/
def splitOnChar (sep : Char) (cs : List Char) : List (List Char) :=
  cs.foldr
    (fun c acc =>
      if c = sep then [] :: acc
      else
        match acc with
        | g :: gs => (c :: g) :: gs
        | [] => [[c]])
    [[]]

/-- `re.sub(r'!.*\n', '', s)` acting on the newline-split segments of `s`:
in every newline-terminated segment the span from its first `!` through the
terminating newline is deleted (a match never crosses a newline, and `.` does
not match `\n`, so the matches of the regex are exactly those spans); the
final segment has no terminating newline, so a `!` there never matches. -/
def stripSegs : List (List Char) → List Char
  | [] => []
  | [last] => last
  | seg :: rest =>
    if '!' ∈ seg then seg.takeWhile (fun c => c ≠ '!') ++ stripSegs rest
    else seg ++ '\n' :: stripSegs rest

/-- `re.sub(r'!.*\n', '', s)`. -/
def stripExclaim (s : String) : String :=
  String.mk (stripSegs (splitOnChar '\n' s.data))

/-- Value of a base64 alphabet character. -/
def b64Val (c : Char) : Option Nat :=
  if 65 ≤ c.toNat ∧ c.toNat ≤ 90 then some (c.toNat - 65)
  else if 97 ≤ c.toNat ∧ c.toNat ≤ 122 then some (c.toNat - 97 + 26)
  else if 48 ≤ c.toNat ∧ c.toNat ≤ 57 then some (c.toNat - 48 + 52)
  else if c.toNat = 43 then some 62
  else if c.toNat = 47 then some 63
  else none

/-- Emit the three bytes of a full base64 quantum. -/
def b64Emit3 (a b c d : Nat) : List Nat :=
  [a * 4 + b / 16, (b % 16) * 16 + c / 4, (c % 4) * 64 + d]

/-- Bytes of a incomplete quantum flushed at a padding character. -/
def b64Flush : List Nat → List Nat
  | [a, b] => [a * 4 + b / 16]
  | [a, b, c] => [a * 4 + b / 16, (b % 16) * 16 + c / 4]
  | _ => []

/-- `base64.b64decode` in its default lenient mode (CPython `binascii`):
characters outside the alphabet are discarded; `=` with at least two values
accumulated flushes the incomplete quantum and ends the parse; a leftover
incomplete quantum at the end is a `binascii.Error` (`none` here).  `quad` is
the current quantum (zero to three 6-bit values).  (On a `str` argument
Python first ASCII-encodes, raising on non-ASCII input; the upstream body
is ASCII text, and non-ASCII characters are simply discarded here.) -/
def b64Loop : List Char → List Nat → Option (List Nat)
  | [], quad => if quad.isEmpty then some [] else none
  | ch :: rest, quad =>
    if ch = '=' then
      if 2 ≤ quad.length then some (b64Flush quad) else b64Loop rest quad
    else
      match b64Val ch with
      | none => b64Loop rest quad
      | some v =>
        match quad ++ [v] with
        | [a, b, c, d] =>
          (b64Loop rest []).map (fun tl => b64Emit3 a b c d ++ tl)
        | q2 => b64Loop rest q2

/-- Strict UTF-8 decoding of a byte list (Python `bytes.decode('utf-8')`):
the usual one- to four-byte forms, rejecting overlong encodings, surrogates
and out-of-range code points. -/
def utf8Decode : List Nat → Option (List Char)
  | [] => some []
  | b :: rest =>
    if b ≤ 127 then (utf8Decode rest).map (fun tl => Char.ofNat b :: tl)
    else if 194 ≤ b ∧ b ≤ 223 then
      match rest with
      | b2 :: rest2 =>
        if 128 ≤ b2 ∧ b2 ≤ 191 then
          (utf8Decode rest2).map (fun tl => Char.ofNat ((b - 192) * 64 + (b2 - 128)) :: tl)
        else none
      | [] => none
    else if 224 ≤ b ∧ b ≤ 239 then
      match rest with
      | b2 :: b3 :: rest3 =>
        if (if b = 224 then 160 ≤ b2 ∧ b2 ≤ 191
            else if b = 237 then 128 ≤ b2 ∧ b2 ≤ 159
            else 128 ≤ b2 ∧ b2 ≤ 191) ∧ 128 ≤ b3 ∧ b3 ≤ 191 then
          (utf8Decode rest3).map
            (fun tl => Char.ofNat ((b - 224) * 4096 + (b2 - 128) * 64 + (b3 - 128)) :: tl)
        else none
      | _ => none
    else if 240 ≤ b ∧ b ≤ 244 then
      match rest with
      | b2 :: b3 :: b4 :: rest4 =>
        if (if b = 240 then 144 ≤ b2 ∧ b2 ≤ 191
            else if b = 244 then 128 ≤ b2 ∧ b2 ≤ 143
            else 128 ≤ b2 ∧ b2 ≤ 191) ∧ (128 ≤ b3 ∧ b3 ≤ 191) ∧ 128 ≤ b4 ∧ b4 ≤ 191 then
          (utf8Decode rest4).map
            (fun tl =>
              Char.ofNat ((b - 240) * 262144 + (b2 - 128) * 4096 + (b3 - 128) * 64 + (b4 - 128)) :: tl)
        else none
      | _ => none
    else none

/-- base64-decode then UTF-8-decode; `none` on either failure. -/
def b64ThenUtf8 (text : String) : Option String :=
  match b64Loop text.data [] with
  | none => none
  | some bytes =>
    match utf8Decode bytes with
    | none => none
    | some cs => some (String.mk cs)

/-- The decode part of `fetch_and_decode_data` applied to a fetched body. -/
def decodeBody (b : String) : Option String := b64ThenUtf8 (stripExclaim b)

/-- `fetch_and_decode_data`: `none` models a fetch failure (connection
error, timeout or non-2xx via `raise_for_status` — all caught, returning
`None`); a fetched body is comment-stripped and decoded, and decoding
failures also yield `None`. -/
def fetch_and_decode (body : Option String) : Option String :=
  body.bind decodeBody

/-- Modelled from the claim wording, for comparison with `stripExclaim`:
remove exactly the lines of the body that begin with `!` (each with its
terminating newline), keeping all other lines untouched. -/
def specRemoveCommentLines (b : String) : String :=
  String.mk (joinNl ((splitOnChar '\n' b.data).filter (fun seg => seg.head? ≠ some '!')))
where
  /-- Join segments with newlines (inverse of `splitOnChar '\n'`). -/
  joinNl : List (List Char) → List Char
    | [] => []
    | [seg] => seg
    | seg :: rest => seg ++ '\n' :: joinNl rest

/-- The decode step as the claim describes it: remove comment lines, then
base64- and UTF-8-decode. -/
def specDecode (b : String) : Option String := b64ThenUtf8 (specRemoveCommentLines b)

/-! ### The JSON value model for the DoH resolver

`response.json()` yields a Python value; `doh_resolve` then runs
`if 'Answer' in data: for answer in data['Answer']: if answer['type'] == 1:
ips.append(answer['data'])`.  Only `requests.exceptions.RequestException`
and `json.JSONDecodeError` are caught, so `KeyError`/`TypeError` raised by
these operations propagate out of `doh_resolve`.  JSON numbers are modeled
as integers (no claim exercises floats). -/

inductive Json where
  | jnull : Json
  | jbool : Bool → Json
  | jnum : Int → Json
  | jstr : String → Json
  | jarr : List Json → Json
  | jobj : List (String × Json) → Json

/-- The uncaught Python exceptions `doh_resolve` can raise. -/
inductive PyExc where
  | keyError : PyExc
  | typeError : PyExc
deriving DecidableEq

/-- Python `key in value` (`in` on a dict tests keys; on a list, element
equality — only a JSON string can equal a Python string; on a string,
substring containment; on other values it raises `TypeError`).  Parsed JSON
objects have unique keys. -/
def pyContainsKey (v : Json) (k : String) : Except PyExc Bool :=
  match v with
  | .jobj fields => .ok ((fields.find? (fun p => p.1 == k)).isSome)
  | .jarr elems =>
    .ok (elems.any (fun e => match e with | .jstr s => s == k | _ => false))
  | .jstr s => .ok (containsSub k.data s.data)
  | _ => .error .typeError

/-- Python `value[key]` with a string key: dict lookup (`KeyError` when the
key is absent); any non-dict raises `TypeError`. -/
def pyGetItem (v : Json) (k : String) : Except PyExc Json :=
  match v with
  | .jobj fields =>
    match fields.find? (fun p => p.1 == k) with
    | some p => .ok p.2
    | none => .error .keyError
  | _ => .error .typeError

/-- Python iteration over a JSON value: a list yields its elements, a string
its one-character strings, a dict its keys; other values raise
`TypeError`. -/
def pyIter (v : Json) : Except PyExc (List Json) :=
  match v with
  | .jarr es => .ok es
  | .jstr s => .ok (s.data.map (fun c => .jstr (String.mk [c])))
  | .jobj fs => .ok (fs.map (fun p => .jstr p.1))
  | _ => .error .typeError

/-- Python `x == 1` on a JSON value: true for the integer 1 and for `true`
(Python `True == 1`); JSON floats are not modeled. -/
def pyEqOne (t : Json) : Bool :=
  match t with
  | .jnum 1 => true
  | .jbool true => true
  | _ => false

/-- Claim-side predicate (formalizing the words of claim C3): `s` contains
some contiguous substring matching the dotted-quad pattern. -/
def containsDottedQuad (s : String) : Bool :=
  s.data.tails.any (fun t => t.inits.any (fun p => isQuadChars p))

/-- Claim-side predicate for the amended claim C1: an `Answer` entry is an
object with a `type` field and, whenever that field equals 1, a string
`data` field. -/
def answerWF (a : Json) : Bool :=
  match a with
  | .jobj fs =>
    match fs.find? (fun p => p.1 == "type") with
    | none => false
    | some p =>
      if pyEqOne p.2 then
        match fs.find? (fun q => q.1 == "data") with
        | some q => (match q.2 with | .jstr _ => true | _ => false)
        | none => false
      else true
  | _ => false

/-- Claim-side predicate for the amended claim C1: the JSON body is an
object whose `Answer` field, when present, is an array of well-formed
answer entries. -/
def bodyWF (v : Json) : Bool :=
  match v with
  | .jobj fs =>
    match fs.find? (fun p => p.1 == "Answer") with
    | none => true
    | some p =>
      match p.2 with
      | .jarr es => es.all answerWF
      | _ => false
  | _ => false

/-- Exit code and the content handed to the single `f.write` call of a run,
if that call was reached (`none` when no output file was opened). -/
structure RunOutcome where
  exitCode : Nat
  written : Option String
deriving DecidableEq

/-! ## `src/domain_processor.py` -/

namespace DomainProcessor

/-- `ADDRESS_LIST_NAME = "ProxyRouteIPs"`. -/
def addressListName : String := "ProxyRouteIPs"

/-- `COMMENT_PREFIX = "RouteIP-"`. -/
def commentTag : String := "RouteIP-"

/-- The loop body of `extract_domains` for one line: strip, skip blank
lines and lines starting with `!`, `[` or `@`, search the domain regex,
lowercase and strip the match, reject dotted quads and `localhost`
carriers, drop one leading dot, and accept when nonempty with a dot
(`line.startswith(c)` is the `head?` test on the stripped line, and
`domain[1:]` is `tail`; `if not line` is the emptiness test). -/
def processLine (line : String) : Option String :=
  if pyStrip line.data = [] ∨ (pyStrip line.data).head? = some '!'
      ∨ (pyStrip line.data).head? = some '[' ∨ (pyStrip line.data).head? = some '@' then
    none
  else
    match reSearchAux (pyStrip line.data) with
    | none => none
    | some g =>
      if isQuadChars (pyLower (pyStrip g)) ∨ containsSub localhostChars (pyLower (pyStrip g)) then
        none
      else if (pyLower (pyStrip g)).head? = some '.' then
        if (pyLower (pyStrip g)).tail ≠ [] ∧ '.' ∈ (pyLower (pyStrip g)).tail then
          some (String.mk (pyLower (pyStrip g)).tail)
        else none
      else
        if pyLower (pyStrip g) ≠ [] ∧ '.' ∈ pyLower (pyStrip g) then
          some (String.mk (pyLower (pyStrip g)))
        else none

/-- `extract_domains` on a list of lines (accumulate the accepted domains
into a set, return them sorted). -/
def extractCore (lines : List String) : List String :=
  sortedDedup (lines.filterMap processLine)

/-- `extract_domains(data_content)`. -/
def extract_domains (content : String) : List String :=
  extractCore (pySplitlines content)

/-- The observable outcome of the HTTPS request `doh_resolve` makes:
`requestError` covers every `requests.exceptions.RequestException`
(connection failure, timeout, and non-2xx status via `raise_for_status`),
`badJson` a 2xx body that `response.json()` cannot parse, `json v` a parsed
JSON body. -/
inductive DohResponse where
  | requestError : DohResponse
  | badJson : DohResponse
  | json : Json → DohResponse

/-- The `for answer in ...` loop of `doh_resolve`: keep `answer['data']` of
every answer whose `answer['type'] == 1`, propagating the `KeyError` or
`TypeError` these lookups can raise. -/
def collectA : List Json → Except PyExc (List Json)
  | [] => .ok []
  | a :: rest =>
    match pyGetItem a "type" with
    | .error e => .error e
    | .ok t =>
      if pyEqOne t then
        match pyGetItem a "data" with
        | .error e => .error e
        | .ok d =>
          match collectA rest with
          | .error e => .error e
          | .ok tl => .ok (d :: tl)
      else collectA rest

/-- The JSON-processing part of `doh_resolve`:
`if 'Answer' in data: for answer in data['Answer']: ...` with Python
`in`/`[]`/iteration semantics. -/
def dohParse (v : Json) : Except PyExc (List Json) :=
  match pyContainsKey v "Answer" with
  | .error e => .error e
  | .ok false => .ok []
  | .ok true =>
    match pyGetItem v "Answer" with
    | .error e => .error e
    | .ok ans =>
      match pyIter ans with
      | .error e => .error e
      | .ok elems => collectA elems

/-- `doh_resolve(domain)` as a function of the HTTPS exchange's outcome:
`RequestException` and `JSONDecodeError` are caught and yield `[]`; on a
parsed JSON body the answer loop runs, and any `KeyError`/`TypeError` it
raises is not caught and propagates (`Except.error`). -/
def doh_resolve (r : DohResponse) : Except PyExc (List Json) :=
  match r with
  | .requestError => .ok []
  | .badJson => .ok []
  | .json v => dohParse v

/-- `(COMMENT_PREFIX + domain)[:63]` (Python slicing counts code points). -/
def safe_comment (domain : String) : String :=
  String.mk ((commentTag.data ++ domain.data).take 63)

/-- One `add ...` line of the generated script. -/
def addLine (ip comment : String) : String :=
  "add address=\"" ++ ip ++ "\" list=\"" ++ addressListName ++ "\" comment=\"" ++
    comment ++ "\"\n"

/-- The inner `for ip in ips` loop of `generate_mikrotik_rsc`: an address
already in `resolved_ips` is skipped; otherwise, if it matches the
dotted-quad pattern, an `(address, comment)` entry is emitted and the
address enters `resolved_ips` (an address failing the pattern is skipped
and not remembered).  Returns the updated seen-set and the emitted
entries in order. -/
def emitIPs (domain : String) : List String → List String → List String × List (String × String)
  | [], seen => (seen, [])
  | ip :: rest, seen =>
    if ip ∈ seen then emitIPs domain rest seen
    else if isDottedQuad ip then
      ((emitIPs domain rest (ip :: seen)).1,
        (ip, safe_comment domain) :: (emitIPs domain rest (ip :: seen)).2)
    else emitIPs domain rest seen

/-- The outer `for domain in domains` loop, threading `resolved_ips`.
`resolve` abstracts `doh_resolve`'s returned address list per domain (the
claims about the renderer concern runs in which `doh_resolve` returns). -/
def genPairs (resolve : String → List String) :
    List String → List String → List String × List (String × String)
  | [], seen => (seen, [])
  | d :: ds, seen =>
    ((genPairs resolve ds (emitIPs d (resolve d) seen).1).1,
      (emitIPs d (resolve d) seen).2 ++ (genPairs resolve ds (emitIPs d (resolve d) seen).1).2)

/-- The fixed header of the generated script: comment lines, the
`/ip firewall address-list` context line and the `remove [find ...]`
line.  `now` is the `datetime.datetime.now(...)` timestamp string. -/
def headerText (now : String) : String :=
  "# IP Address List for Policy Routing\n" ++
  "# Generated at: " ++ now ++ "\n" ++
  "# Source: Remote Domain List via DOH (Google IP)\n\n" ++
  "/ip firewall address-list\n" ++
  "remove [find list=" ++ addressListName ++ "]\n\n"

/-- `generate_mikrotik_rsc(domains)`: the header followed by one `add` line
per emitted entry (string concatenation in loop order). -/
def generate_mikrotik_rsc (resolve : String → List String) (now : String)
    (domains : List String) : String :=
  headerText now ++
    String.join (((genPairs resolve domains []).2).map (fun p => addLine p.1 p.2))

/-- `main()`: decode failure (including fetch failure) exits 1 before any
output is opened; the Python truthiness test `if not decoded_content` also
exits on an empty decoded string; an empty extraction exits 1; otherwise
the full script is assembled in memory and a single write is attempted,
exiting 0 on success and 1 on a write error. -/
def pymain (httpBody : Option String) (resolve : String → List String) (now : String)
    (writeOk : Bool) : RunOutcome :=
  match fetch_and_decode httpBody with
  | none => ⟨1, none⟩
  | some content =>
    if content = "" then ⟨1, none⟩
    else if extract_domains content = [] then ⟨1, none⟩
    else if writeOk then
      ⟨0, some (generate_mikrotik_rsc resolve now (extract_domains content))⟩
    else ⟨1, some (generate_mikrotik_rsc resolve now (extract_domains content))⟩

end DomainProcessor

/-! ## `generate_fwd_list.py` -/

namespace FwdList

/-- `ADDRESS_LIST_NAME = "ProxyList"`. -/
def addressListName : String := "ProxyList"

/-- `COMMENT_PREFIX = "ProxyIP-"`. -/
def commentTag : String := "ProxyIP-"

/-- `REMOTE_DATA_URL`. -/
def remoteDataUrl : String :=
  "https://raw.githubusercontent.com/gfwlist/gfwlist/master/gfwlist.txt"

/-- The loop body of this script's `extract_domains` for one line: it skips
only `!` and `[` lines (no `@`) and has no `localhost` filter. -/
def processLine (line : String) : Option String :=
  if pyStrip line.data = [] ∨ (pyStrip line.data).head? = some '!'
      ∨ (pyStrip line.data).head? = some '[' then
    none
  else
    match reSearchAux (pyStrip line.data) with
    | none => none
    | some g =>
      if isQuadChars (pyLower (pyStrip g)) then
        none
      else if (pyLower (pyStrip g)).head? = some '.' then
        if (pyLower (pyStrip g)).tail ≠ [] ∧ '.' ∈ (pyLower (pyStrip g)).tail then
          some (String.mk (pyLower (pyStrip g)).tail)
        else none
      else
        if pyLower (pyStrip g) ≠ [] ∧ '.' ∈ pyLower (pyStrip g) then
          some (String.mk (pyLower (pyStrip g)))
        else none

/-- `extract_domains` on a list of lines. -/
def extractCore (lines : List String) : List String :=
  sortedDedup (lines.filterMap processLine)

/-- `extract_domains(data_content)`. -/
def extract_domains (content : String) : List String :=
  extractCore (pySplitlines content)

/-- `(COMMENT_PREFIX + domain)[:63]`. -/
def safe_comment (domain : String) : String :=
  String.mk ((commentTag.data ++ domain.data).take 63)

/-- One `add ...` line of the generated script. -/
def addLine (ip comment : String) : String :=
  "add address=\"" ++ ip ++ "\" list=\"" ++ addressListName ++ "\" comment=\"" ++
    comment ++ "\"\n"

/-- The inner `for ip in ips` loop: this variant has no dotted-quad filter;
an unseen address is emitted and remembered.  `resolve` abstracts
`socket.getaddrinfo`; a `gaierror`/exception there is caught by
`continue`, which (the loop body having no earlier effect) is the same as
an empty address list. -/
def emitIPs (domain : String) : List String → List String → List String × List (String × String)
  | [], seen => (seen, [])
  | ip :: rest, seen =>
    if ip ∈ seen then emitIPs domain rest seen
    else
      ((emitIPs domain rest (ip :: seen)).1,
        (ip, safe_comment domain) :: (emitIPs domain rest (ip :: seen)).2)

/-- The outer `for domain in domains` loop, threading `resolved_ips`. -/
def genPairs (resolve : String → List String) :
    List String → List String → List String × List (String × String)
  | [], seen => (seen, [])
  | d :: ds, seen =>
    ((genPairs resolve ds (emitIPs d (resolve d) seen).1).1,
      (emitIPs d (resolve d) seen).2 ++ (genPairs resolve ds (emitIPs d (resolve d) seen).1).2)

/-- Header of the generated script; `now` is the output of the
`os.popen('date -u')` shell call. -/
def headerText (now : String) : String :=
  "# IP Address List for Proxy Policy Routing\n" ++
  "# Generated at: " ++ now ++ "\n" ++
  "# Source: " ++ remoteDataUrl ++ " (Domain list source)\n\n" ++
  "/ip firewall address-list\n" ++
  "remove [find list=" ++ addressListName ++ "]\n\n"

/-- `generate_mikrotik_rsc(domains)`. -/
def generate_mikrotik_rsc (resolve : String → List String) (now : String)
    (domains : List String) : String :=
  headerText now ++
    String.join (((genPairs resolve domains []).2).map (fun p => addLine p.1 p.2))

/-- `main()` of `generate_fwd_list.py` (same control flow as the other
variant's `main`). -/
def pymain (httpBody : Option String) (resolve : String → List String) (now : String)
    (writeOk : Bool) : RunOutcome :=
  match fetch_and_decode httpBody with
  | none => ⟨1, none⟩
  | some content =>
    if content = "" then ⟨1, none⟩
    else if extract_domains content = [] then ⟨1, none⟩
    else if writeOk then
      ⟨0, some (generate_mikrotik_rsc resolve now (extract_domains content))⟩
    else ⟨1, some (generate_mikrotik_rsc resolve now (extract_domains content))⟩

end FwdList

/-! ## Lemmas: characters -/

theorem charToNat_ofNat {n : Nat} (h : n < 55296) : (Char.ofNat n).toNat = n := by
  unfold Char.ofNat
  rw [dif_pos (Or.inl h)]
  rfl

theorem charToNat_inj {a b : Char} (h : a.toNat = b.toNat) : a = b :=
  Char.ext (UInt32.toNat.inj h)

theorem pyToLower_toNat (c : Char) :
    (pyToLower c).toNat =
      if 65 ≤ c.toNat ∧ c.toNat ≤ 90 then c.toNat + 32 else c.toNat := by
  unfold pyToLower Char.toLower
  by_cases h : 65 ≤ c.toNat ∧ c.toNat ≤ 90
  · rw [if_pos h, if_pos ⟨h.1, h.2⟩, charToNat_ofNat (by omega)]
  · rw [if_neg h, if_neg (fun hc => h ⟨hc.1, hc.2⟩)]

theorem isC1_pyToLower {c : Char} (h : isC1 c = true) : isC1 (pyToLower c) = true := by
  have ht := pyToLower_toNat c
  unfold isC1 at h ⊢
  rw [decide_eq_true_iff] at h ⊢
  split at ht <;> omega

theorem isC2_pyToLower {c : Char} (h : isC2 c = true) : isC2 (pyToLower c) = true := by
  have ht := pyToLower_toNat c
  unfold isC2 isC1 at h ⊢
  rw [Bool.or_eq_true, decide_eq_true_iff, decide_eq_true_iff] at h ⊢
  split at ht <;> omega

theorem pyToLower_idem (c : Char) : pyToLower (pyToLower c) = pyToLower c := by
  apply charToNat_inj
  rw [pyToLower_toNat (pyToLower c)]
  have h := pyToLower_toNat c
  split at h
  · rw [if_neg (by omega)]
  · rw [if_neg (by omega)]

theorem pyToLower_dot : pyToLower '.' = '.' := by decide

theorem isC1_ne_special {c : Char} (h : isC1 c = true) :
    c ≠ '.' ∧ c ≠ '|' ∧ c ≠ '!' ∧ c ≠ '[' ∧ c ≠ '@' := by
  refine ⟨fun hc => ?_, fun hc => ?_, fun hc => ?_, fun hc => ?_, fun hc => ?_⟩ <;>
    (subst hc; exact absurd h (by decide))

theorem isC1_isC2 {c : Char} (h : isC1 c = true) : isC2 c = true := by
  unfold isC2
  rw [h, Bool.true_or]

theorem isC2_not_space {c : Char} (h : isC2 c = true) : isPySpace c = false := by
  unfold isC2 isC1 at h
  unfold isPySpace
  rw [Bool.or_eq_true, decide_eq_true_iff, decide_eq_true_iff] at h
  rw [decide_eq_false_iff_not]
  omega

theorem isC2_dot : isC2 '.' = true := by decide

/-! ## Lemmas: strip, takeWhile -/

theorem dropWhile_all_false {α : Type} {p : α → Bool} :
    ∀ {l : List α}, (∀ c ∈ l, p c = false) → l.dropWhile p = l
  | [], _ => rfl
  | c :: t, h => by
    rw [List.dropWhile_cons, h c (List.mem_cons_self c t)]
    simp

theorem takeWhile_all_true {α : Type} {p : α → Bool} :
    ∀ {l : List α}, (∀ c ∈ l, p c = true) → l.takeWhile p = l
  | [], _ => rfl
  | c :: t, h => by
    rw [List.takeWhile_cons, h c (List.mem_cons_self c t)]
    simp only [if_true]
    rw [takeWhile_all_true (fun x hx => h x (List.mem_cons_of_mem c hx))]

theorem takeWhile_middle {α : Type} {p : α → Bool} {xs : List α} {y : α} {ys : List α}
    (hx : ∀ c ∈ xs, p c = true) (hy : p y = false) :
    (xs ++ y :: ys).takeWhile p = xs := by
  rw [List.takeWhile_append_of_pos (by intro a ha; exact hx a ha), List.takeWhile_cons, hy]
  simp

theorem pyStrip_eq_self {cs : List Char} (h : ∀ c ∈ cs, isPySpace c = false) :
    pyStrip cs = cs := by
  unfold pyStrip
  rw [dropWhile_all_false h,
    dropWhile_all_false (fun c hc => h c (List.mem_reverse.mp hc)),
    List.reverse_reverse]

theorem pyStrip_head {c : Char} {cs : List Char} (h : isPySpace c = false) :
    ∃ t, pyStrip (c :: cs) = c :: t := by
  unfold pyStrip
  rw [List.dropWhile_cons, h]
  simp only [Bool.false_eq_true, if_false]
  rw [List.reverse_cons, List.dropWhile_append]
  split
  · refine ⟨[], ?_⟩
    rw [List.dropWhile_cons, h]
    simp
  · refine ⟨(cs.reverse.dropWhile isPySpace).reverse, ?_⟩
    rw [List.reverse_append]
    simp

/-! ## Lemmas: the domain regex -/

theorem isEmpty_false_ne_nil {α : Type} {l : List α} (h : l.isEmpty = false) : l ≠ [] := by
  cases l with
  | nil => simp at h
  | cons a t => simp

theorem groupMatchAt_some {cs g : List Char} (h : groupMatchAt cs = some g) :
    ∃ r1 r2 : List Char, g = r1 ++ '.' :: r2 ∧ r1 ≠ [] ∧ r2 ≠ [] ∧
      (∀ c ∈ r1, isC1 c = true) ∧ ∀ c ∈ r2, isC2 c = true := by
  unfold groupMatchAt at h
  split at h
  · exact absurd h (by simp)
  · rename_i hne
    split at h
    · rename_i rest heq
      split at h
      · exact absurd h (by simp)
      · rename_i hne2
        injection h with h
        refine ⟨cs.takeWhile isC1, rest.takeWhile isC2, h.symm, ?_, ?_, ?_, ?_⟩
        · exact isEmpty_false_ne_nil (Bool.of_not_eq_true hne)
        · exact isEmpty_false_ne_nil (Bool.of_not_eq_true hne2)
        · exact fun c hc => List.mem_takeWhile_imp hc
        · exact fun c hc => List.mem_takeWhile_imp hc
    · exact absurd h (by simp)

theorem groupMatchAt_full {r1 r2 : List Char} (h1 : r1 ≠ []) (h2 : r2 ≠ [])
    (hc1 : ∀ c ∈ r1, isC1 c = true) (hc2 : ∀ c ∈ r2, isC2 c = true) :
    groupMatchAt (r1 ++ '.' :: r2) = some (r1 ++ '.' :: r2) := by
  have ht : (r1 ++ '.' :: r2).takeWhile isC1 = r1 := takeWhile_middle hc1 (by decide)
  have ht2 : r2.takeWhile isC2 = r2 := takeWhile_all_true hc2
  unfold groupMatchAt
  rw [ht, List.drop_left]
  have hne : r1.isEmpty = false := by cases r1 with | nil => exact absurd rfl h1 | cons a t => rfl
  rw [hne]
  simp only [Bool.false_eq_true, if_false]
  rw [ht2]
  have hne2 : r2.isEmpty = false := by cases r2 with | nil => exact absurd rfl h2 | cons a t => rfl
  rw [hne2]
  simp

theorem matchAt_some {cs g : List Char} (h : matchAt cs = some g) :
    ∃ t, groupMatchAt t = some g := by
  unfold matchAt at h
  split at h
  · rename_i rest
    split at h
    · rename_i g2 heq
      injection h with h
      subst h
      exact ⟨rest, heq⟩
    · exact ⟨_, h⟩
  · rename_i rest
    split at h
    · rename_i g2 heq
      injection h with h
      subst h
      exact ⟨rest, heq⟩
    · exact ⟨_, h⟩
  · exact ⟨_, h⟩

theorem matchAt_c1 {c : Char} {cs : List Char} (h : isC1 c = true) :
    matchAt (c :: cs) = groupMatchAt (c :: cs) := by
  obtain ⟨hdot, hbar, -, -, -⟩ := isC1_ne_special h
  unfold matchAt
  split
  · rename_i rest heq
    injection heq with heq1 heq2
    exact absurd heq1 hbar
  · rename_i rest heq
    injection heq with heq1 heq2
    exact absurd heq1 hdot
  · rfl

theorem reSearchAux_some {cs g : List Char} (h : reSearchAux cs = some g) :
    ∃ t, groupMatchAt t = some g := by
  induction cs with
  | nil => exact absurd h (by simp [reSearchAux])
  | cons c cs ih =>
    rw [reSearchAux] at h
    split at h
    · rename_i g2 heq
      injection h with h
      subst h
      exact matchAt_some heq
    · exact ih h

theorem reSearchAux_head {c : Char} {cs g : List Char} (h : isC1 c = true)
    (hg : groupMatchAt (c :: cs) = some g) : reSearchAux (c :: cs) = some g := by
  rw [reSearchAux, matchAt_c1 h, hg]

/-! ## Lemmas: structure of accepted domains -/

theorem group_all_c2 {r1 r2 : List Char} (hc1 : ∀ c ∈ r1, isC1 c = true)
    (hc2 : ∀ c ∈ r2, isC2 c = true) : ∀ c ∈ r1 ++ '.' :: r2, isC2 c = true := by
  intro x hx
  rcases List.mem_append.mp hx with hx1 | hx2
  · exact isC1_isC2 (hc1 x hx1)
  · rcases List.mem_cons.mp hx2 with rfl | hx3
    · exact isC2_dot
    · exact hc2 x hx3

theorem pyLower_group {r1 r2 : List Char} :
    pyLower (r1 ++ '.' :: r2) = pyLower r1 ++ '.' :: pyLower r2 := by
  unfold pyLower
  rw [List.map_append, List.map_cons, pyToLower_dot]

theorem pyLower_fix_of_image {l : List Char} :
    pyLower (pyLower l) = pyLower l := by
  unfold pyLower
  rw [List.map_map]
  exact List.map_congr_left (fun x _ => pyToLower_idem x)

theorem dp_processLine_some {line d : String}
    (h : DomainProcessor.processLine line = some d) :
    ∃ l1 l2 : List Char, d.data = l1 ++ '.' :: l2 ∧ l1 ≠ [] ∧ l2 ≠ [] ∧
      (∀ c ∈ l1, isC1 c = true) ∧ (∀ c ∈ l2, isC2 c = true) ∧
      pyLower d.data = d.data ∧
      isQuadChars d.data = false ∧ containsSub localhostChars d.data = false := by
  unfold DomainProcessor.processLine at h
  split at h
  · exact absurd h (by simp)
  split at h
  · exact absurd h (by simp)
  rename_i g heq2
  obtain ⟨t, hgm⟩ := reSearchAux_some heq2
  obtain ⟨r1, r2, rfl, hr1, hr2, hc1, hc2⟩ := groupMatchAt_some hgm
  have hstripg : pyStrip (r1 ++ '.' :: r2) = r1 ++ '.' :: r2 :=
    pyStrip_eq_self (fun x hx => isC2_not_space (group_all_c2 hc1 hc2 x hx))
  rw [hstripg, pyLower_group] at h
  obtain ⟨c0, t0, rfl⟩ : ∃ c0 t0, r1 = c0 :: t0 := by
    cases r1 with
    | nil => exact absurd rfl hr1
    | cons a b => exact ⟨a, b, rfl⟩
  have hc0 : isC1 (pyToLower c0) = true :=
    isC1_pyToLower (hc1 c0 (List.mem_cons_self c0 t0))
  have hconsl : pyLower (c0 :: t0) = pyToLower c0 :: pyLower t0 := rfl
  split at h
  · exact absurd h (by simp)
  rename_i hql
  simp only [not_or, Bool.not_eq_true] at hql
  split at h
  · rename_i hdot
    rw [hconsl] at hdot
    simp only [List.cons_append, List.head?_cons, Option.some.injEq] at hdot
    exact absurd hdot (isC1_ne_special hc0).1
  rename_i hdot
  split at h
  · injection h with h
    subst h
    refine ⟨pyLower (c0 :: t0), pyLower r2, rfl, ?_, ?_, ?_, ?_, ?_, hql.1, hql.2⟩
    · rw [hconsl]
      exact List.cons_ne_nil _ _
    · intro hx
      exact hr2 (List.map_eq_nil_iff.mp hx)
    · intro x hx
      obtain ⟨y, hy, rfl⟩ := List.mem_map.mp hx
      exact isC1_pyToLower (hc1 y hy)
    · intro x hx
      obtain ⟨y, hy, rfl⟩ := List.mem_map.mp hx
      exact isC2_pyToLower (hc2 y hy)
    · show pyLower (pyLower (c0 :: t0) ++ '.' :: pyLower r2) = _
      rw [← pyLower_group, pyLower_fix_of_image, pyLower_group]
  · exact absurd h (by simp)

theorem fl_processLine_some {line d : String}
    (h : FwdList.processLine line = some d) :
    ∃ l1 l2 : List Char, d.data = l1 ++ '.' :: l2 ∧ l1 ≠ [] ∧ l2 ≠ [] ∧
      (∀ c ∈ l1, isC1 c = true) ∧ (∀ c ∈ l2, isC2 c = true) ∧
      pyLower d.data = d.data ∧ isQuadChars d.data = false := by
  unfold FwdList.processLine at h
  split at h
  · exact absurd h (by simp)
  split at h
  · exact absurd h (by simp)
  rename_i g heq2
  obtain ⟨t, hgm⟩ := reSearchAux_some heq2
  obtain ⟨r1, r2, rfl, hr1, hr2, hc1, hc2⟩ := groupMatchAt_some hgm
  have hstripg : pyStrip (r1 ++ '.' :: r2) = r1 ++ '.' :: r2 :=
    pyStrip_eq_self (fun x hx => isC2_not_space (group_all_c2 hc1 hc2 x hx))
  rw [hstripg, pyLower_group] at h
  obtain ⟨c0, t0, rfl⟩ : ∃ c0 t0, r1 = c0 :: t0 := by
    cases r1 with
    | nil => exact absurd rfl hr1
    | cons a b => exact ⟨a, b, rfl⟩
  have hc0 : isC1 (pyToLower c0) = true :=
    isC1_pyToLower (hc1 c0 (List.mem_cons_self c0 t0))
  have hconsl : pyLower (c0 :: t0) = pyToLower c0 :: pyLower t0 := rfl
  split at h
  · exact absurd h (by simp)
  rename_i hql
  rw [Bool.not_eq_true] at hql
  split at h
  · rename_i hdot
    rw [hconsl] at hdot
    simp only [List.cons_append, List.head?_cons, Option.some.injEq] at hdot
    exact absurd hdot (isC1_ne_special hc0).1
  rename_i hdot
  split at h
  · injection h with h
    subst h
    refine ⟨pyLower (c0 :: t0), pyLower r2, rfl, ?_, ?_, ?_, ?_, ?_, hql⟩
    · rw [hconsl]
      exact List.cons_ne_nil _ _
    · intro hx
      exact hr2 (List.map_eq_nil_iff.mp hx)
    · intro x hx
      obtain ⟨y, hy, rfl⟩ := List.mem_map.mp hx
      exact isC1_pyToLower (hc1 y hy)
    · intro x hx
      obtain ⟨y, hy, rfl⟩ := List.mem_map.mp hx
      exact isC2_pyToLower (hc2 y hy)
    · show pyLower (pyLower (c0 :: t0) ++ '.' :: pyLower r2) = _
      rw [← pyLower_group, pyLower_fix_of_image, pyLower_group]
  · exact absurd h (by simp)

theorem dp_processLine_good {l1 l2 : List Char} (h1 : l1 ≠ []) (h2 : l2 ≠ [])
    (hc1 : ∀ c ∈ l1, isC1 c = true) (hc2 : ∀ c ∈ l2, isC2 c = true)
    (hlow : pyLower (l1 ++ '.' :: l2) = l1 ++ '.' :: l2)
    (hq : isQuadChars (l1 ++ '.' :: l2) = false)
    (hl : containsSub localhostChars (l1 ++ '.' :: l2) = false) :
    DomainProcessor.processLine (String.mk (l1 ++ '.' :: l2)) =
      some (String.mk (l1 ++ '.' :: l2)) := by
  obtain ⟨c0, t0, rfl⟩ : ∃ c0 t0, l1 = c0 :: t0 := by
    cases l1 with
    | nil => exact absurd rfl h1
    | cons a b => exact ⟨a, b, rfl⟩
  have hc0 : isC1 c0 = true := hc1 c0 (List.mem_cons_self c0 t0)
  obtain ⟨-, -, hb1, hb2, hb3⟩ := isC1_ne_special hc0
  have hstrip : pyStrip ((c0 :: t0) ++ '.' :: l2) = (c0 :: t0) ++ '.' :: l2 :=
    pyStrip_eq_self (fun x hx => isC2_not_space (group_all_c2 hc1 hc2 x hx))
  have hsearch : reSearchAux ((c0 :: t0) ++ '.' :: l2) = some ((c0 :: t0) ++ '.' :: l2) := by
    rw [List.cons_append]
    exact reSearchAux_head hc0
      (by rw [← List.cons_append]; exact groupMatchAt_full h1 h2 hc1 hc2)
  have hdata : (String.mk ((c0 :: t0) ++ '.' :: l2)).data = (c0 :: t0) ++ '.' :: l2 := rfl
  unfold DomainProcessor.processLine
  rw [hdata, hstrip]
  rw [if_neg ?hskip]
  case hskip =>
    rw [List.cons_append, List.head?_cons]
    rintro (hx | hx | hx | hx)
    · exact List.cons_ne_nil _ _ hx
    · exact hb1 (Option.some.inj hx)
    · exact hb2 (Option.some.inj hx)
    · exact hb3 (Option.some.inj hx)
  simp only [hsearch]
  rw [hstrip, hlow]
  rw [if_neg ?hquad]
  case hquad =>
    rintro (hx | hx)
    · rw [hq] at hx
      exact Bool.false_ne_true hx
    · rw [hl] at hx
      exact Bool.false_ne_true hx
  rw [if_neg ?hdot]
  case hdot =>
    rw [List.cons_append, List.head?_cons]
    intro hx
    exact (isC1_ne_special hc0).1 (Option.some.inj hx)
  rw [if_pos ?hfin]
  case hfin =>
    constructor
    · rw [List.cons_append]
      exact List.cons_ne_nil _ _
    · exact List.mem_append.mpr (Or.inr (List.mem_cons_self _ _))

theorem fl_processLine_good {l1 l2 : List Char} (h1 : l1 ≠ []) (h2 : l2 ≠ [])
    (hc1 : ∀ c ∈ l1, isC1 c = true) (hc2 : ∀ c ∈ l2, isC2 c = true)
    (hlow : pyLower (l1 ++ '.' :: l2) = l1 ++ '.' :: l2)
    (hq : isQuadChars (l1 ++ '.' :: l2) = false) :
    FwdList.processLine (String.mk (l1 ++ '.' :: l2)) =
      some (String.mk (l1 ++ '.' :: l2)) := by
  obtain ⟨c0, t0, rfl⟩ : ∃ c0 t0, l1 = c0 :: t0 := by
    cases l1 with
    | nil => exact absurd rfl h1
    | cons a b => exact ⟨a, b, rfl⟩
  have hc0 : isC1 c0 = true := hc1 c0 (List.mem_cons_self c0 t0)
  obtain ⟨-, -, hb1, hb2, -⟩ := isC1_ne_special hc0
  have hstrip : pyStrip ((c0 :: t0) ++ '.' :: l2) = (c0 :: t0) ++ '.' :: l2 :=
    pyStrip_eq_self (fun x hx => isC2_not_space (group_all_c2 hc1 hc2 x hx))
  have hsearch : reSearchAux ((c0 :: t0) ++ '.' :: l2) = some ((c0 :: t0) ++ '.' :: l2) := by
    rw [List.cons_append]
    exact reSearchAux_head hc0
      (by rw [← List.cons_append]; exact groupMatchAt_full h1 h2 hc1 hc2)
  have hdata : (String.mk ((c0 :: t0) ++ '.' :: l2)).data = (c0 :: t0) ++ '.' :: l2 := rfl
  unfold FwdList.processLine
  rw [hdata, hstrip]
  rw [if_neg ?hskip]
  case hskip =>
    rw [List.cons_append, List.head?_cons]
    rintro (hx | hx | hx)
    · exact List.cons_ne_nil _ _ hx
    · exact hb1 (Option.some.inj hx)
    · exact hb2 (Option.some.inj hx)
  simp only [hsearch]
  rw [hstrip, hlow]
  rw [if_neg ?hquad]
  case hquad =>
    intro hx
    rw [hq] at hx
    exact Bool.false_ne_true hx
  rw [if_neg ?hdot]
  case hdot =>
    rw [List.cons_append, List.head?_cons]
    intro hx
    exact (isC1_ne_special hc0).1 (Option.some.inj hx)
  rw [if_pos ?hfin]
  case hfin =>
    constructor
    · rw [List.cons_append]
      exact List.cons_ne_nil _ _
    · exact List.mem_append.mpr (Or.inr (List.mem_cons_self _ _))

theorem dp_processLine_fix {line d : String}
    (h : DomainProcessor.processLine line = some d) :
    DomainProcessor.processLine d = some d := by
  obtain ⟨l1, l2, hd, h1, h2, hc1, hc2, hlow, hq, hl⟩ := dp_processLine_some h
  rw [hd] at hlow hq hl
  rw [show d = String.mk d.data from rfl, hd]
  exact dp_processLine_good h1 h2 hc1 hc2 hlow hq hl

theorem fl_processLine_fix {line d : String}
    (h : FwdList.processLine line = some d) :
    FwdList.processLine d = some d := by
  obtain ⟨l1, l2, hd, h1, h2, hc1, hc2, hlow, hq⟩ := fl_processLine_some h
  rw [hd] at hlow hq
  rw [show d = String.mk d.data from rfl, hd]
  exact fl_processLine_good h1 h2 hc1 hc2 hlow hq

/-! ## Lemmas: sorted de-duplication -/

theorem strData_inj {a b : String} (h : a.data = b.data) : a = b := by
  cases a
  cases b
  exact congrArg String.mk h

theorem charListLe_total : ∀ a b : List Char, charListLe a b = true ∨ charListLe b a = true
  | [], _ => Or.inl rfl
  | _ :: _, [] => Or.inr rfl
  | a :: as, b :: bs => by
    rw [charListLe, charListLe]
    rcases Nat.lt_trichotomy a.toNat b.toNat with h | h | h
    · left
      rw [if_pos h]
    · rw [if_neg (by omega), if_neg (by omega), if_neg (by omega), if_neg (by omega)]
      exact charListLe_total as bs
    · right
      rw [if_pos h]

theorem charListLe_trans :
    ∀ a b c : List Char, charListLe a b = true → charListLe b c = true →
      charListLe a c = true
  | [], _, _, _, _ => rfl
  | _ :: _, [], _, h1, _ => by simp [charListLe] at h1
  | _ :: _, _ :: _, [], _, h2 => by simp [charListLe] at h2
  | a :: as, b :: bs, c :: cs, h1, h2 => by
    rw [charListLe] at h1 h2 ⊢
    split at h1
    · rename_i hab
      split at h2
      · rename_i hbc
        rw [if_pos (by omega)]
      · split at h2
        · exact absurd h2 (by simp)
        · rename_i hcb hbc
          rw [if_pos (by omega)]
    · split at h1
      · exact absurd h1 (by simp)
      · rename_i hab hba
        split at h2
        · rename_i hbc
          rw [if_pos (by omega)]
        · split at h2
          · exact absurd h2 (by simp)
          · rename_i hcb hbc
            rw [if_neg (by omega), if_neg (by omega)]
            exact charListLe_trans as bs cs h1 h2

theorem charListLe_antisymm :
    ∀ a b : List Char, charListLe a b = true → charListLe b a = true → a = b
  | [], [], _, _ => rfl
  | [], _ :: _, _, h2 => by simp [charListLe] at h2
  | _ :: _, [], h1, _ => by simp [charListLe] at h1
  | a :: as, b :: bs, h1, h2 => by
    rw [charListLe] at h1 h2
    split at h1
    · rename_i hab
      rw [if_neg (by omega), if_pos hab] at h2
      exact absurd h2 (by simp)
    · split at h1
      · exact absurd h1 (by simp)
      · rename_i hba hab
        have heq : a = b := charToNat_inj (by omega)
        subst heq
        rw [if_neg (by omega), if_neg (by omega)] at h2
        rw [charListLe_antisymm as bs h1 h2]

theorem strOrd_total (a b : String) : strOrd a b ∨ strOrd b a :=
  charListLe_total a.data b.data

theorem strOrd_trans {a b c : String} (h1 : strOrd a b) (h2 : strOrd b c) : strOrd a c :=
  charListLe_trans a.data b.data c.data h1 h2

theorem strOrd_antisymm {a b : String} (h1 : strOrd a b) (h2 : strOrd b a) : a = b :=
  strData_inj (charListLe_antisymm a.data b.data h1 h2)

theorem insertSorted_perm (a : String) :
    ∀ l : List String, List.Perm (insertSorted a l) (a :: l)
  | [] => List.Perm.refl _
  | b :: t => by
    rw [insertSorted]
    split
    · exact List.Perm.refl _
    · exact (List.Perm.cons b (insertSorted_perm a t)).trans (List.Perm.swap a b t)

theorem sortStrings_perm : ∀ l : List String, List.Perm (sortStrings l) l
  | [] => List.Perm.refl _
  | a :: t => by
    rw [sortStrings]
    exact (insertSorted_perm a (sortStrings t)).trans (List.Perm.cons a (sortStrings_perm t))

theorem insertSorted_pairwise (a : String) :
    ∀ {l : List String}, l.Pairwise strOrd → (insertSorted a l).Pairwise strOrd
  | [], _ => by simp [insertSorted, List.pairwise_singleton]
  | b :: t, hp => by
    rw [insertSorted]
    rcases List.pairwise_cons.mp hp with ⟨hbt, hpt⟩
    split
    · rename_i hab
      refine List.pairwise_cons.mpr ⟨?_, hp⟩
      intro x hx
      rcases List.mem_cons.mp hx with rfl | hx2
      · exact hab
      · exact strOrd_trans hab (hbt x hx2)
    · rename_i hab
      refine List.pairwise_cons.mpr ⟨?_, insertSorted_pairwise a hpt⟩
      intro x hx
      have hx2 := (insertSorted_perm a t).mem_iff.mp hx
      rcases List.mem_cons.mp hx2 with rfl | hx3
      · rcases strOrd_total b x with h | h
        · exact h
        · exact absurd h hab
      · exact hbt x hx3

theorem sortStrings_pairwise : ∀ l : List String, (sortStrings l).Pairwise strOrd
  | [] => List.Pairwise.nil
  | a :: t => by
    rw [sortStrings]
    exact insertSorted_pairwise a (sortStrings_pairwise t)

theorem sortStrings_fix : ∀ {l : List String}, l.Pairwise strOrd → sortStrings l = l
  | [], _ => rfl
  | a :: t, hp => by
    rw [sortStrings]
    rcases List.pairwise_cons.mp hp with ⟨hat, hpt⟩
    rw [sortStrings_fix hpt]
    cases t with
    | nil => rfl
    | cons b t2 =>
      rw [insertSorted,
        if_pos (show strLeB a b = true from hat b (List.mem_cons_self _ _))]

theorem sortedDedup_sorted (l : List String) : (sortedDedup l).Pairwise strOrd :=
  sortStrings_pairwise l.dedup

theorem sortedDedup_nodup (l : List String) : (sortedDedup l).Nodup :=
  ((sortStrings_perm l.dedup).symm).nodup (List.nodup_dedup l)

theorem sortedDedup_perm_inv {l1 l2 : List String} (h : List.Perm l1 l2) :
    sortedDedup l1 = sortedDedup l2 := by
  have hperm : List.Perm (sortedDedup l1) (sortedDedup l2) :=
    (sortStrings_perm l1.dedup).trans
      ((h.dedup).trans (sortStrings_perm l2.dedup).symm)
  exact @List.eq_of_perm_of_sorted String strOrd
    ⟨fun a b h1 h2 => strOrd_antisymm h1 h2⟩ _ _ hperm
    (sortedDedup_sorted l1) (sortedDedup_sorted l2)

theorem sortedDedup_fix {l : List String} (hs : l.Pairwise strOrd) (hn : l.Nodup) :
    sortedDedup l = l := by
  unfold sortedDedup
  rw [List.dedup_eq_self.mpr hn]
  exact sortStrings_fix hs

theorem mem_sortedDedup {a : String} {l : List String} : a ∈ sortedDedup l ↔ a ∈ l :=
  ((sortStrings_perm l.dedup).mem_iff).trans List.mem_dedup

/-! ## Lemmas: the rendering loops -/

theorem dp_emitIPs_seen (d a : String) (ips : List String) :
    ∀ seen, a ∈ (DomainProcessor.emitIPs d ips seen).1 ↔
      a ∈ seen ∨ (a ∈ ips ∧ isDottedQuad a = true) := by
  induction ips with
  | nil => intro seen; simp [DomainProcessor.emitIPs]
  | cons ip rest ih =>
    intro seen
    rw [DomainProcessor.emitIPs]
    split
    · rename_i hin
      rw [ih seen]
      by_cases haip : a = ip
      · subst haip
        simp [List.mem_cons, hin]
      · simp [List.mem_cons, haip]
    · rename_i hnin
      split
      · rename_i hquad
        rw [show (((DomainProcessor.emitIPs d rest (ip :: seen)).1,
            (ip, DomainProcessor.safe_comment d) ::
              (DomainProcessor.emitIPs d rest (ip :: seen)).2)).1 =
            (DomainProcessor.emitIPs d rest (ip :: seen)).1 from rfl]
        rw [ih (ip :: seen)]
        by_cases haip : a = ip
        · subst haip
          simp [List.mem_cons, hquad]
        · simp [List.mem_cons, haip]
      · rename_i hnquad
        rw [ih seen]
        by_cases haip : a = ip
        · subst haip
          have hfq : isDottedQuad a = false := Bool.of_not_eq_true hnquad
          simp [List.mem_cons, hfq]
        · simp [List.mem_cons, haip]

theorem dp_emitIPs_filter (d a : String) (hq : isDottedQuad a = true) (ips : List String) :
    ∀ seen, ((DomainProcessor.emitIPs d ips seen).2).filter (fun p => decide (p.1 = a)) =
      if a ∈ seen ∨ a ∉ ips then [] else [(a, DomainProcessor.safe_comment d)] := by
  induction ips with
  | nil => intro seen; simp [DomainProcessor.emitIPs]
  | cons ip rest ih =>
    intro seen
    rw [DomainProcessor.emitIPs]
    split
    · rename_i hin
      rw [ih seen]
      by_cases haip : a = ip
      · subst haip
        simp [hin]
      · by_cases hintl : a ∈ rest
        · simp [List.mem_cons, haip, hintl]
        · simp [List.mem_cons, haip, hintl]
    · rename_i hnin
      split
      · rename_i hquad
        rw [show (((DomainProcessor.emitIPs d rest (ip :: seen)).1,
            (ip, DomainProcessor.safe_comment d) ::
              (DomainProcessor.emitIPs d rest (ip :: seen)).2)).2 =
            (ip, DomainProcessor.safe_comment d) ::
              (DomainProcessor.emitIPs d rest (ip :: seen)).2 from rfl]
        rw [List.filter_cons]
        by_cases haip : a = ip
        · subst haip
          rw [ih (a :: seen)]
          rw [if_pos (Or.inl (List.mem_cons_self a seen))]
          simp [hnin]
        · rw [ih (ip :: seen)]
          have hmem : (a ∈ ip :: seen ∨ a ∉ rest) ↔ (a ∈ seen ∨ a ∉ ip :: rest) := by
            simp [List.mem_cons, haip]
          simp only [decide_eq_true_eq]
          rw [if_neg (by simpa using Ne.symm haip)]
          by_cases hcond : a ∈ seen ∨ a ∉ rest
          · rw [if_pos (by rcases hcond with h | h
                           · exact Or.inl (List.mem_cons_of_mem ip h)
                           · exact Or.inr h),
              if_pos (by rcases hcond with h | h
                         · exact Or.inl h
                         · exact Or.inr (fun hh => by
                             rcases List.mem_cons.mp hh with rfl | hh
                             · exact haip rfl
                             · exact h hh))]
          · rw [if_neg (by rintro (h | h)
                           · rcases List.mem_cons.mp h with rfl | h
                             · exact haip rfl
                             · exact hcond (Or.inl h)
                           · exact hcond (Or.inr h)),
              if_neg (by rintro (h | h)
                         · exact hcond (Or.inl h)
                         · exact hcond (Or.inr (fun hh => h (List.mem_cons_of_mem ip hh))))]
      · rename_i hnquad
        have haip : a ≠ ip := fun hh => hnquad (by rw [← hh]; exact hq)
        rw [ih seen]
        by_cases hintl : a ∈ rest
        · simp [List.mem_cons, haip, hintl]
        · simp [List.mem_cons, haip, hintl]

theorem dp_genPairs_filter (resolve : String → List String) (a : String)
    (hq : isDottedQuad a = true) (ds : List String) :
    ∀ seen, ((DomainProcessor.genPairs resolve ds seen).2).filter (fun p => decide (p.1 = a)) =
      if a ∈ seen then []
      else
        match ds.find? (fun dd => decide (a ∈ resolve dd)) with
        | none => []
        | some d0 => [(a, DomainProcessor.safe_comment d0)] := by
  induction ds with
  | nil =>
    intro seen
    rw [DomainProcessor.genPairs]
    simp only [List.filter_nil, List.find?_nil]
    split <;> rfl
  | cons d0 ds ih =>
    intro seen
    rw [DomainProcessor.genPairs]
    rw [show ((DomainProcessor.genPairs resolve ds
        (DomainProcessor.emitIPs d0 (resolve d0) seen).1).1,
        (DomainProcessor.emitIPs d0 (resolve d0) seen).2 ++
          (DomainProcessor.genPairs resolve ds
            (DomainProcessor.emitIPs d0 (resolve d0) seen).1).2).2 =
        (DomainProcessor.emitIPs d0 (resolve d0) seen).2 ++
          (DomainProcessor.genPairs resolve ds
            (DomainProcessor.emitIPs d0 (resolve d0) seen).1).2 from rfl]
    rw [List.filter_append, dp_emitIPs_filter d0 a hq (resolve d0) seen,
      ih ((DomainProcessor.emitIPs d0 (resolve d0) seen).1)]
    by_cases hin : a ∈ seen
    · rw [if_pos (Or.inl hin),
        if_pos ((dp_emitIPs_seen d0 a (resolve d0) seen).mpr (Or.inl hin)),
        if_pos hin]
      rfl
    · by_cases hres : a ∈ resolve d0
      · rw [if_neg (by rintro (h | h); exacts [hin h, h hres]),
          if_pos ((dp_emitIPs_seen d0 a (resolve d0) seen).mpr (Or.inr ⟨hres, hq⟩)),
          if_neg hin]
        have hfind : List.find? (fun dd => decide (a ∈ resolve dd)) (d0 :: ds) = some d0 := by
          rw [List.find?_cons]
          simp [hres]
        rw [hfind]
        rfl
      · rw [if_pos (Or.inr hres),
          if_neg (fun hh => by
            rcases (dp_emitIPs_seen d0 a (resolve d0) seen).mp hh with h | ⟨h, -⟩
            exacts [hin h, hres h]),
          if_neg hin]
        have hfind : List.find? (fun dd => decide (a ∈ resolve dd)) (d0 :: ds) =
            List.find? (fun dd => decide (a ∈ resolve dd)) ds := by
          rw [List.find?_cons]
          simp [hres]
        rw [hfind]
        rfl

theorem dp_emitIPs_mem (d : String) (ips : List String) :
    ∀ seen p, p ∈ (DomainProcessor.emitIPs d ips seen).2 →
      p.2 = DomainProcessor.safe_comment d := by
  induction ips with
  | nil =>
    intro seen p hp
    simp [DomainProcessor.emitIPs] at hp
  | cons ip rest ih =>
    intro seen p hp
    rw [DomainProcessor.emitIPs] at hp
    split at hp
    · exact ih seen p hp
    · split at hp
      · rcases List.mem_cons.mp hp with rfl | hp2
        · rfl
        · exact ih _ p hp2
      · exact ih seen p hp

theorem dp_genPairs_mem (resolve : String → List String) (ds : List String) :
    ∀ seen p, p ∈ (DomainProcessor.genPairs resolve ds seen).2 →
      ∃ d0 ∈ ds, p.2 = DomainProcessor.safe_comment d0 := by
  induction ds with
  | nil =>
    intro seen p hp
    simp [DomainProcessor.genPairs] at hp
  | cons d0 ds ih =>
    intro seen p hp
    rw [DomainProcessor.genPairs] at hp
    rcases List.mem_append.mp hp with hp1 | hp2
    · exact ⟨d0, List.mem_cons_self _ _, dp_emitIPs_mem d0 (resolve d0) seen p hp1⟩
    · obtain ⟨d1, hd1, hcom⟩ := ih _ p hp2
      exact ⟨d1, List.mem_cons_of_mem _ hd1, hcom⟩

theorem fl_emitIPs_mem (d : String) (ips : List String) :
    ∀ seen p, p ∈ (FwdList.emitIPs d ips seen).2 →
      p.2 = FwdList.safe_comment d := by
  induction ips with
  | nil =>
    intro seen p hp
    simp [FwdList.emitIPs] at hp
  | cons ip rest ih =>
    intro seen p hp
    rw [FwdList.emitIPs] at hp
    split at hp
    · exact ih seen p hp
    · rcases List.mem_cons.mp hp with rfl | hp2
      · rfl
      · exact ih _ p hp2

theorem fl_genPairs_mem (resolve : String → List String) (ds : List String) :
    ∀ seen p, p ∈ (FwdList.genPairs resolve ds seen).2 →
      ∃ d0 ∈ ds, p.2 = FwdList.safe_comment d0 := by
  induction ds with
  | nil =>
    intro seen p hp
    simp [FwdList.genPairs] at hp
  | cons d0 ds ih =>
    intro seen p hp
    rw [FwdList.genPairs] at hp
    rcases List.mem_append.mp hp with hp1 | hp2
    · exact ⟨d0, List.mem_cons_self _ _, fl_emitIPs_mem d0 (resolve d0) seen p hp1⟩
    · obtain ⟨d1, hd1, hcom⟩ := ih _ p hp2
      exact ⟨d1, List.mem_cons_of_mem _ hd1, hcom⟩

theorem dp_genPairs_empty (resolve : String → List String) :
    ∀ ds : List String, (∀ d ∈ ds, resolve d = []) →
      ∀ seen, DomainProcessor.genPairs resolve ds seen = (seen, []) := by
  intro ds
  induction ds with
  | nil =>
    intro h seen
    rw [DomainProcessor.genPairs]
  | cons d0 ds ih =>
    intro h seen
    rw [DomainProcessor.genPairs, h d0 (List.mem_cons_self _ _)]
    rw [show DomainProcessor.emitIPs d0 [] seen = (seen, []) from rfl]
    rw [ih (fun d hd => h d (List.mem_cons_of_mem _ hd)) seen]
    rfl

theorem dp_genPairs_congr {r1 r2 : String → List String} :
    ∀ ds : List String, (∀ d ∈ ds, r1 d = r2 d) →
      ∀ seen, DomainProcessor.genPairs r1 ds seen = DomainProcessor.genPairs r2 ds seen := by
  intro ds
  induction ds with
  | nil =>
    intro h seen
    rw [DomainProcessor.genPairs, DomainProcessor.genPairs]
  | cons d0 ds ih =>
    intro h seen
    rw [DomainProcessor.genPairs, DomainProcessor.genPairs, h d0 (List.mem_cons_self _ _),
      ih (fun d hd => h d (List.mem_cons_of_mem _ hd))]

theorem fl_genPairs_congr {r1 r2 : String → List String} :
    ∀ ds : List String, (∀ d ∈ ds, r1 d = r2 d) →
      ∀ seen, FwdList.genPairs r1 ds seen = FwdList.genPairs r2 ds seen := by
  intro ds
  induction ds with
  | nil =>
    intro h seen
    rw [FwdList.genPairs, FwdList.genPairs]
  | cons d0 ds ih =>
    intro h seen
    rw [FwdList.genPairs, FwdList.genPairs, h d0 (List.mem_cons_self _ _),
      ih (fun d hd => h d (List.mem_cons_of_mem _ hd))]

/-! ## Lemmas: the decode step -/

theorem splitOnChar_ne_nil (sep : Char) : ∀ cs : List Char, splitOnChar sep cs ≠ []
  | [] => by simp [splitOnChar]
  | c :: cs => by
    unfold splitOnChar
    rw [List.foldr_cons]
    split
    · exact List.cons_ne_nil _ _
    · split
      · exact List.cons_ne_nil _ _
      · exact List.cons_ne_nil _ _

theorem head?_bang_mem {seg : List Char} (h : seg.head? = some '!') : '!' ∈ seg := by
  cases seg with
  | nil => exact absurd h (by simp)
  | cons a t =>
    rw [List.head?_cons] at h
    injection h with h
    rw [h]
    exact List.mem_cons_self _ _

theorem stripSegs_filter :
    ∀ (init : List (List Char)) (lastSeg : List Char),
      (∀ seg ∈ init, '!' ∈ seg → seg.head? = some '!') → '!' ∉ lastSeg →
      stripSegs (init ++ [lastSeg]) =
        specRemoveCommentLines.joinNl
          ((init ++ [lastSeg]).filter (fun seg => seg.head? ≠ some '!')) := by
  intro init
  induction init with
  | nil =>
    intro lastSeg hinit hlast
    simp only [List.nil_append]
    rw [List.filter_cons,
      if_pos (show decide (lastSeg.head? ≠ some '!') = true from
        decide_eq_true (fun hh => hlast (head?_bang_mem hh)))]
    rfl
  | cons seg init ih =>
    intro lastSeg hinit hlast
    have hseg := hinit seg (List.mem_cons_self _ _)
    have hinit2 : ∀ s ∈ init, '!' ∈ s → s.head? = some '!' :=
      fun s hs => hinit s (List.mem_cons_of_mem _ hs)
    rw [List.cons_append]
    cases happ : init ++ [lastSeg] with
    | nil => exact absurd happ (by simp)
    | cons b t =>
      have hstep : stripSegs (seg :: b :: t) =
          if '!' ∈ seg then seg.takeWhile (fun c => c ≠ '!') ++ stripSegs (b :: t)
          else seg ++ '\n' :: stripSegs (b :: t) := by
        rw [stripSegs]
        simp
      rw [hstep]
      by_cases hbang : '!' ∈ seg
      · have hhead := hseg hbang
        have htake : seg.takeWhile (fun c => c ≠ '!') = [] := by
          cases seg with
          | nil => rfl
          | cons a sx =>
            rw [List.head?_cons] at hhead
            injection hhead with hhead
            subst hhead
            rw [List.takeWhile_cons]
            simp
        rw [if_pos hbang, htake, List.nil_append, ← happ,
          ih lastSeg hinit2 hlast, List.filter_cons,
          if_neg (by rw [hhead]; simp)]
      · rw [if_neg hbang, ← happ, ih lastSeg hinit2 hlast, List.filter_cons,
          if_pos (show decide (seg.head? ≠ some '!') = true from
            decide_eq_true (fun hh => hbang (head?_bang_mem hh)))]
        have hlastkeep : lastSeg ∈
            (init ++ [lastSeg]).filter (fun sg => sg.head? ≠ some '!') := by
          rw [List.mem_filter]
          refine ⟨List.mem_append.mpr (Or.inr (List.mem_cons_self _ _)), ?_⟩
          exact decide_eq_true (fun hh => hlast (head?_bang_mem hh))
        cases hfx : (init ++ [lastSeg]).filter (fun sg => sg.head? ≠ some '!') with
        | nil =>
          rw [hfx] at hlastkeep
          exact absurd hlastkeep (by simp)
        | cons y t2 =>
          have hjoin : specRemoveCommentLines.joinNl (seg :: y :: t2) =
              seg ++ '\n' :: specRemoveCommentLines.joinNl (y :: t2) := by
            rw [specRemoveCommentLines.joinNl]
            simp
          rw [hjoin]

theorem stripExclaim_spec {b : String}
    (h1 : ∀ seg ∈ (splitOnChar '\n' b.data).dropLast, '!' ∈ seg → seg.head? = some '!')
    (h2 : ∀ lastSeg, (splitOnChar '\n' b.data).getLast? = some lastSeg → '!' ∉ lastSeg) :
    stripExclaim b = specRemoveCommentLines b := by
  have hne : splitOnChar '\n' b.data ≠ [] := splitOnChar_ne_nil '\n' b.data
  have hdec : (splitOnChar '\n' b.data).dropLast ++ [(splitOnChar '\n' b.data).getLast hne] =
      splitOnChar '\n' b.data := List.dropLast_append_getLast hne
  have hlast : '!' ∉ (splitOnChar '\n' b.data).getLast hne :=
    h2 _ (List.getLast?_eq_getLast _ hne)
  unfold stripExclaim specRemoveCommentLines
  rw [← hdec, stripSegs_filter _ _ h1 hlast]

theorem decodeBody_fail_iff (b : String) :
    decodeBody b = none ↔
      b64Loop (stripExclaim b).data [] = none ∨
      ∃ bs, b64Loop (stripExclaim b).data [] = some bs ∧ utf8Decode bs = none := by
  unfold decodeBody b64ThenUtf8
  cases hb : b64Loop (stripExclaim b).data [] with
  | none => simp
  | some bs =>
    cases hu : utf8Decode bs with
    | none => simp [hu]
    | some cs => simp [hu]

/-! ## Lemmas: the DoH answer loop -/

theorem collectA_wf :
    ∀ es : List Json, (∀ a ∈ es, answerWF a = true) →
      ∃ l, DomainProcessor.collectA es = .ok l ∧ ∀ x ∈ l, ∃ s, x = .jstr s := by
  intro es
  induction es with
  | nil =>
    intro h
    exact ⟨[], rfl, by simp⟩
  | cons a rest ih =>
    intro h
    have ha := h a (List.mem_cons_self _ _)
    obtain ⟨l, hl, hstr⟩ := ih (fun x hx => h x (List.mem_cons_of_mem _ hx))
    unfold answerWF at ha
    split at ha
    · rename_i fs
      split at ha
      · exact absurd ha (by simp)
      · rename_i p heqt
        have hget : pyGetItem (Json.jobj fs) "type" = .ok p.2 := by
          simp only [pyGetItem]
          rw [heqt]
        simp only [DomainProcessor.collectA, hget]
        by_cases hone : pyEqOne p.2 = true
        · rw [if_pos hone] at ha
          rw [if_pos hone]
          split at ha
          · rename_i q heqd
            split at ha
            · rename_i s hq2
              have hgetd : pyGetItem (Json.jobj fs) "data" = .ok q.2 := by
                simp only [pyGetItem]
                rw [heqd]
              simp only [hgetd, hq2, hl]
              refine ⟨Json.jstr s :: l, rfl, ?_⟩
              intro x hx
              rcases List.mem_cons.mp hx with rfl | hx2
              · exact ⟨s, rfl⟩
              · exact hstr x hx2
            · exact absurd ha (by simp)
          · exact absurd ha (by simp)
        · rw [if_neg hone]
          exact ⟨l, hl, hstr⟩
    · exact absurd ha (by simp)

theorem pyStrip_head_eq {ch : Char} {cs : List Char} (hsp : isPySpace ch = false)
    (hh : cs.head? = some ch) : (pyStrip cs).head? = some ch := by
  cases cs with
  | nil => exact absurd hh (by simp)
  | cons c t =>
    rw [List.head?_cons] at hh
    injection hh with hh
    subst hh
    obtain ⟨tt, htt⟩ := @pyStrip_head c t hsp
    rw [htt, List.head?_cons]

theorem str_append_empty (s : String) : s ++ "" = s := by
  cases s with
  | mk l =>
    apply strData_inj
    show l ++ [] = l
    exact List.append_nil l

theorem dp_extract_mem {content d : String}
    (h : d ∈ DomainProcessor.extract_domains content) :
    ∃ line, DomainProcessor.processLine line = some d := by
  have h2 : d ∈ (pySplitlines content).filterMap DomainProcessor.processLine :=
    mem_sortedDedup.mp h
  obtain ⟨line, -, hline⟩ := List.mem_filterMap.mp h2
  exact ⟨line, hline⟩

theorem fl_extract_mem {content d : String}
    (h : d ∈ FwdList.extract_domains content) :
    ∃ line, FwdList.processLine line = some d := by
  have h2 : d ∈ (pySplitlines content).filterMap FwdList.processLine :=
    mem_sortedDedup.mp h
  obtain ⟨line, -, hline⟩ := List.mem_filterMap.mp h2
  exact ⟨line, hline⟩

theorem dp_extract_idem (s : String) :
    DomainProcessor.extractCore (DomainProcessor.extract_domains s) =
      DomainProcessor.extract_domains s := by
  have hfm : (DomainProcessor.extract_domains s).filterMap DomainProcessor.processLine =
      List.map id (DomainProcessor.extract_domains s) :=
    List.filterMap_eq_map_iff_forall_eq_some.mpr
      (fun d hd => dp_processLine_fix (dp_extract_mem hd).choose_spec)
  unfold DomainProcessor.extractCore
  rw [hfm, List.map_id]
  exact sortedDedup_fix (sortedDedup_sorted _) (sortedDedup_nodup _)

theorem fl_extract_idem (s : String) :
    FwdList.extractCore (FwdList.extract_domains s) = FwdList.extract_domains s := by
  have hfm : (FwdList.extract_domains s).filterMap FwdList.processLine =
      List.map id (FwdList.extract_domains s) :=
    List.filterMap_eq_map_iff_forall_eq_some.mpr
      (fun d hd => fl_processLine_fix (fl_extract_mem hd).choose_spec)
  unfold FwdList.extractCore
  rw [hfm, List.map_id]
  exact sortedDedup_fix (sortedDedup_sorted _) (sortedDedup_nodup _)

theorem dohParse_wf {v : Json} (h : bodyWF v = true) :
    ∃ l, DomainProcessor.dohParse v = .ok l ∧ ∀ x ∈ l, ∃ s, x = .jstr s := by
  unfold bodyWF at h
  split at h
  · rename_i fs
    split at h
    · rename_i hnone
      have hck : pyContainsKey (Json.jobj fs) "Answer" = .ok false := by
        simp only [pyContainsKey]
        rw [hnone]
        rfl
      refine ⟨[], ?_, by simp⟩
      unfold DomainProcessor.dohParse
      rw [hck]
    · rename_i p heqa
      split at h
      · rename_i es heq2
        have hck : pyContainsKey (Json.jobj fs) "Answer" = .ok true := by
          simp only [pyContainsKey]
          rw [heqa]
          rfl
        have hget : pyGetItem (Json.jobj fs) "Answer" = .ok p.2 := by
          simp only [pyGetItem]
          rw [heqa]
        have hval : DomainProcessor.dohParse (Json.jobj fs) =
            DomainProcessor.collectA es := by
          unfold DomainProcessor.dohParse
          rw [hck, hget, heq2]
          rfl
        rw [hval]
        exact collectA_wf es (fun a ha => List.all_eq_true.mp h a ha)
      · exact absurd h (by simp)
  · exact absurd h (by simp)

/-! ## The claims -/

/-- C1 counterexample: `doh_resolve` does not return a list for every JSON
response body.  On the 200-status JSON body
`{"Answer": [{"type": 1}]}` (an A-record answer missing its `data` field)
the loop evaluates `answer['data']` and raises an uncaught `KeyError`, so
the claim that every malformed response is caught and mapped to an empty
address set is false. -/
theorem C1_counterexample :
    DomainProcessor.doh_resolve
        (DomainProcessor.DohResponse.json
          (Json.jobj [("Answer", Json.jarr [Json.jobj [("type", Json.jnum 1)]])])) =
      Except.error PyExc.keyError := rfl

/-- C1 (amended): `doh_resolve` maps every caught failure — transport
error, timeout, non-2xx status (`RequestException`) and a non-JSON body
(`JSONDecodeError`) — to the empty list, and for every JSON body that is an
object whose `Answer` field, when present, is an array of objects each
carrying a `type` field and, when that type equals 1, a string `data`
field, it returns (without raising) the list of those `data` strings. -/
theorem C1_doh_resolve_amended :
    DomainProcessor.doh_resolve DomainProcessor.DohResponse.requestError = Except.ok [] ∧
    DomainProcessor.doh_resolve DomainProcessor.DohResponse.badJson = Except.ok [] ∧
    ∀ v : Json, bodyWF v = true →
      ∃ l, DomainProcessor.doh_resolve (DomainProcessor.DohResponse.json v) = Except.ok l ∧
        ∀ x ∈ l, ∃ s, x = Json.jstr s := by
  refine ⟨rfl, rfl, ?_⟩
  intro v hv
  exact dohParse_wf hv

/-- C1 witness: the spec's scenario body
`{"Answer":[{"type":1,"data":"93.184.216.34"},{"type":5,"data":"cname.example."}]}`
is well formed, and `doh_resolve` returns a list of strings on it. -/
theorem C1_witness :
    bodyWF (Json.jobj [("Answer", Json.jarr
        [Json.jobj [("type", Json.jnum 1), ("data", Json.jstr "93.184.216.34")],
         Json.jobj [("type", Json.jnum 5), ("data", Json.jstr "cname.example.")]])]) = true ∧
    ∃ l, DomainProcessor.doh_resolve (DomainProcessor.DohResponse.json
        (Json.jobj [("Answer", Json.jarr
          [Json.jobj [("type", Json.jnum 1), ("data", Json.jstr "93.184.216.34")],
           Json.jobj [("type", Json.jnum 5), ("data", Json.jstr "cname.example.")]])])) =
        Except.ok l ∧ ∀ x ∈ l, ∃ s, x = Json.jstr s :=
  ⟨rfl, C1_doh_resolve_amended.2.2 _ rfl⟩

/-- C2: in the address-list renderer of `domain_processor.py`, an IPv4
address produced by at least one domain gives rise to exactly one
`add address=...` entry in the whole run (the entry list is in bijection
with the emitted `add` lines), and that entry's comment is the
safe-comment of the first domain in processing order whose resolution
contains the address; later producers of the same address are silently
dropped by the `resolved_ips` set. -/
theorem C2_dedup_first_wins (resolve : String → List String) (domains : List String)
    (a : String) (hq : isDottedQuad a = true) (hprod : ∃ d ∈ domains, a ∈ resolve d) :
    ∃ d0, domains.find? (fun dd => decide (a ∈ resolve dd)) = some d0 ∧
      a ∈ resolve d0 ∧
      ((DomainProcessor.genPairs resolve domains []).2).filter
          (fun p => decide (p.1 = a)) = [(a, DomainProcessor.safe_comment d0)] := by
  have hfind : (domains.find? (fun dd => decide (a ∈ resolve dd))).isSome := by
    rw [List.find?_isSome]
    obtain ⟨d, hd, hres⟩ := hprod
    exact ⟨d, hd, decide_eq_true hres⟩
  obtain ⟨d0, hd0⟩ := Option.isSome_iff_exists.mp hfind
  have hp := @List.find?_some String (fun dd => decide (a ∈ resolve dd)) d0 domains hd0
  refine ⟨d0, hd0, of_decide_eq_true hp, ?_⟩
  rw [dp_genPairs_filter resolve a hq domains [], if_neg (List.not_mem_nil a), hd0]

/-- C2 witness: two domains both resolving to `1.2.3.4` yield one entry,
commented with the first domain. -/
theorem C2_witness :
    ∃ d0, ["a.com", "b.com"].find?
        (fun dd => decide (("1.2.3.4" : String) ∈
          (fun (_ : String) => ["1.2.3.4"]) dd)) = some d0 ∧
      ("1.2.3.4" : String) ∈ (fun (_ : String) => ["1.2.3.4"]) d0 ∧
      ((DomainProcessor.genPairs (fun _ => ["1.2.3.4"]) ["a.com", "b.com"] []).2).filter
          (fun p => decide (p.1 = "1.2.3.4")) =
        [("1.2.3.4", DomainProcessor.safe_comment d0)] :=
  C2_dedup_first_wins (fun _ => ["1.2.3.4"]) ["a.com", "b.com"] "1.2.3.4" (by decide)
    ⟨"a.com", by decide, by decide⟩

/-- C3 counterexample: the line `1.2.3.4.com` is extracted as the domain
`1.2.3.4.com` by both variants (its dot-split has five groups, so the
anchored dotted-quad rejection does not fire), yet that domain CONTAINS the
dotted quad `1.2.3.4` — refuting the claim's "nor contains" part. -/
theorem C3_counterexample :
    "1.2.3.4.com" ∈ DomainProcessor.extract_domains "1.2.3.4.com" ∧
    "1.2.3.4.com" ∈ FwdList.extract_domains "1.2.3.4.com" ∧
    containsDottedQuad "1.2.3.4.com" = true :=
  ⟨by decide, by decide, by decide⟩

/-- C3 (amended): every domain returned by either variant's
`extract_domains` is nonempty, contains at least one `.`, begins with
neither `.` nor `|`, and does not EQUAL a dotted-quad IPv4 string (the
original claim's "nor contains" is dropped — the check in the source is
anchored with `^...$`). -/
theorem C3_domain_invariants (content : String) (d : String)
    (h : d ∈ DomainProcessor.extract_domains content ∨
      d ∈ FwdList.extract_domains content) :
    d ≠ "" ∧ '.' ∈ d.data ∧ d.data.head? ≠ some '.' ∧ d.data.head? ≠ some '|' ∧
      isDottedQuad d = false := by
  have key : ∃ l1 l2 : List Char, d.data = l1 ++ '.' :: l2 ∧ l1 ≠ [] ∧
      (∀ c ∈ l1, isC1 c = true) ∧ isQuadChars d.data = false := by
    rcases h with h | h
    · obtain ⟨line, hline⟩ := dp_extract_mem h
      obtain ⟨l1, l2, hd, h1, -, hc1, -, -, hq, -⟩ := dp_processLine_some hline
      exact ⟨l1, l2, hd, h1, hc1, hq⟩
    · obtain ⟨line, hline⟩ := fl_extract_mem h
      obtain ⟨l1, l2, hd, h1, -, hc1, -, -, hq⟩ := fl_processLine_some hline
      exact ⟨l1, l2, hd, h1, hc1, hq⟩
  obtain ⟨l1, l2, hd, h1, hc1, hq⟩ := key
  obtain ⟨c0, t0, rfl⟩ : ∃ c0 t0, l1 = c0 :: t0 := by
    cases l1 with
    | nil => exact absurd rfl h1
    | cons a b => exact ⟨a, b, rfl⟩
  obtain ⟨hdot, hbar, -, -, -⟩ := isC1_ne_special (hc1 c0 (List.mem_cons_self c0 t0))
  refine ⟨?_, ?_, ?_, ?_, hq⟩
  · intro heq
    subst heq
    rw [List.cons_append] at hd
    exact absurd hd (by simp)
  · rw [hd]
    exact List.mem_append.mpr (Or.inr (List.mem_cons_self _ _))
  · rw [hd, List.cons_append, List.head?_cons]
    intro hx
    exact hdot (Option.some.inj hx)
  · rw [hd, List.cons_append, List.head?_cons]
    intro hx
    exact hbar (Option.some.inj hx)

/-- C3 witness: the invariants hold for the domain `a.b` extracted from the
single-line input `a.b`. -/
theorem C3_witness :
    ("a.b" : String) ≠ "" ∧ '.' ∈ ("a.b" : String).data ∧
      ("a.b" : String).data.head? ≠ some '.' ∧
      ("a.b" : String).data.head? ≠ some '|' ∧ isDottedQuad "a.b" = false :=
  C3_domain_invariants "a.b" "a.b" (Or.inl (by decide))

/-- C4 counterexample: `generate_fwd_list.py`'s `extract_domains` does not
skip `@` lines (its skip test checks only `!` and `[`), so the input line
`@@||good.example.com|` contributes the domain `good.example.com` there,
refuting the claim for that variant. -/
theorem C4_counterexample :
    FwdList.extract_domains "@@||good.example.com|" = ["good.example.com"] := rfl

/-- C4 (amended): in `src/domain_processor.py`, `extract_domains` skips
blank (whitespace-only) lines and every line whose first character is `!`,
`[` or `@`, and the input `@@||good.example.com|` contributes no domain;
`generate_fwd_list.py`'s variant skips only `!` and `[` lines. -/
theorem C4_skip_lines :
    (∀ line : String,
        (pyStrip line.data = [] ∨ line.data.head? = some '!' ∨
          line.data.head? = some '[' ∨ line.data.head? = some '@') →
        DomainProcessor.processLine line = none) ∧
    DomainProcessor.extract_domains "@@||good.example.com|" = [] := by
  constructor
  · intro line h
    unfold DomainProcessor.processLine
    rw [if_pos ?hcond]
    case hcond =>
      rcases h with h | h | h | h
      · exact Or.inl h
      · exact Or.inr (Or.inl (pyStrip_head_eq (by decide) h))
      · exact Or.inr (Or.inr (Or.inl (pyStrip_head_eq (by decide) h)))
      · exact Or.inr (Or.inr (Or.inr (pyStrip_head_eq (by decide) h)))
  · rfl

/-- C4 witness: a line starting with `@` is skipped by
`domain_processor.py`'s extractor. -/
theorem C4_witness : DomainProcessor.processLine "@exception.rule.com" = none :=
  C4_skip_lines.1 "@exception.rule.com" (Or.inr (Or.inr (Or.inr (by decide))))

/-- C5 counterexample: the decode step is `re.sub(r'!.*\n', '', body)` and
not a removal of comment LINES: on the body `QUJD!EF\n` the code deletes
from the mid-line `!` through the newline and decodes `QUJD` to `ABC`,
while the claim's description keeps the whole line (it does not begin with
`!`), leaving `QUJDEF` whose base64 decode fails — so the claim as stated
is false. -/
theorem C5_counterexample :
    decodeBody "QUJD!EF\n" = some "ABC" ∧ specDecode "QUJD!EF\n" = none :=
  ⟨rfl, rfl⟩

/-- C5 (amended): the decode step deletes every span from a `!` through the
next newline and then base64- and UTF-8-decodes the remainder, failing
exactly when one of the two decodings fails; in particular on every body in
which each `!` occurs only at the start of a (newline-terminated) line —
the shape of the upstream data — this deletes exactly the comment lines, as
the claim describes. -/
theorem C5_decode_amended :
    (∀ b : String, decodeBody b = none ↔
        b64Loop (stripExclaim b).data [] = none ∨
        ∃ bs, b64Loop (stripExclaim b).data [] = some bs ∧ utf8Decode bs = none) ∧
    (∀ b : String,
        (∀ seg ∈ (splitOnChar '\n' b.data).dropLast, '!' ∈ seg → seg.head? = some '!') →
        (∀ lastSeg, (splitOnChar '\n' b.data).getLast? = some lastSeg → '!' ∉ lastSeg) →
        stripExclaim b = specRemoveCommentLines b ∧ decodeBody b = specDecode b) := by
  constructor
  · exact decodeBody_fail_iff
  · intro b h1 h2
    have hs := stripExclaim_spec h1 h2
    refine ⟨hs, ?_⟩
    unfold decodeBody specDecode
    rw [hs]

/-- C5 witness: on the body `!c\nQQ==\n` (a comment line followed by
base64 payload) the code's stripping agrees with comment-line removal and
both decode to the byte `A`. -/
theorem C5_witness :
    (stripExclaim "!c\nQQ==\n" = specRemoveCommentLines "!c\nQQ==\n" ∧
      decodeBody "!c\nQQ==\n" = specDecode "!c\nQQ==\n") ∧
    decodeBody "!c\nQQ==\n" = some "A" :=
  ⟨C5_decode_amended.2 "!c\nQQ==\n" (by decide) (by decide), rfl⟩

/-- C6: every entry emitted by either address-list renderer carries the
comment `(COMMENT_PREFIX + domain)[:63]` of some processed domain: at most
63 characters, equal to the full prefixed comment when that fits, and
exactly its first 63 characters when it does not. -/
theorem C6_comment_truncation :
    (∀ (resolve : String → List String) (domains : List String) (p : String × String),
        p ∈ (DomainProcessor.genPairs resolve domains []).2 →
        ∃ d ∈ domains, p.2 = DomainProcessor.safe_comment d ∧
          (DomainProcessor.safe_comment d).data =
            (DomainProcessor.commentTag.data ++ d.data).take 63 ∧
          (DomainProcessor.safe_comment d).length ≤ 63 ∧
          ((DomainProcessor.commentTag.data ++ d.data).length ≤ 63 →
            (DomainProcessor.safe_comment d).data =
              DomainProcessor.commentTag.data ++ d.data) ∧
          (63 < (DomainProcessor.commentTag.data ++ d.data).length →
            (DomainProcessor.safe_comment d).length = 63)) ∧
    (∀ (resolve : String → List String) (domains : List String) (p : String × String),
        p ∈ (FwdList.genPairs resolve domains []).2 →
        ∃ d ∈ domains, p.2 = FwdList.safe_comment d ∧
          (FwdList.safe_comment d).data =
            (FwdList.commentTag.data ++ d.data).take 63 ∧
          (FwdList.safe_comment d).length ≤ 63 ∧
          ((FwdList.commentTag.data ++ d.data).length ≤ 63 →
            (FwdList.safe_comment d).data = FwdList.commentTag.data ++ d.data) ∧
          (63 < (FwdList.commentTag.data ++ d.data).length →
            (FwdList.safe_comment d).length = 63)) := by
  constructor
  · intro resolve domains p hp
    obtain ⟨d0, hd0, hcom⟩ := dp_genPairs_mem resolve domains [] p hp
    refine ⟨d0, hd0, hcom, rfl, ?_, ?_, ?_⟩
    · show ((DomainProcessor.commentTag.data ++ d0.data).take 63).length ≤ 63
      rw [List.length_take]
      exact min_le_left _ _
    · intro hlen
      show (DomainProcessor.commentTag.data ++ d0.data).take 63 = _
      exact List.take_of_length_le hlen
    · intro hlen
      show ((DomainProcessor.commentTag.data ++ d0.data).take 63).length = 63
      rw [List.length_take]
      omega
  · intro resolve domains p hp
    obtain ⟨d0, hd0, hcom⟩ := fl_genPairs_mem resolve domains [] p hp
    refine ⟨d0, hd0, hcom, rfl, ?_, ?_, ?_⟩
    · show ((FwdList.commentTag.data ++ d0.data).take 63).length ≤ 63
      rw [List.length_take]
      exact min_le_left _ _
    · intro hlen
      show (FwdList.commentTag.data ++ d0.data).take 63 = _
      exact List.take_of_length_le hlen
    · intro hlen
      show ((FwdList.commentTag.data ++ d0.data).take 63).length = 63
      rw [List.length_take]
      omega

/-- C6 witness: a 64-character domain whose prefixed comment (72
characters) is truncated to 63. -/
theorem C6_witness :
    ∃ d ∈ ["aaaaaaaaaaaaaaaaaaaaaaaaaaaaaaaaaaaaaaaaaaaaaaaaaaaaaaaaaaaa.com"],
      (("1.2.3.4" : String),
        DomainProcessor.safe_comment
          "aaaaaaaaaaaaaaaaaaaaaaaaaaaaaaaaaaaaaaaaaaaaaaaaaaaaaaaaaaaa.com").2 =
        DomainProcessor.safe_comment d ∧
      (DomainProcessor.safe_comment d).data =
        (DomainProcessor.commentTag.data ++ d.data).take 63 ∧
      (DomainProcessor.safe_comment d).length ≤ 63 ∧
      ((DomainProcessor.commentTag.data ++ d.data).length ≤ 63 →
        (DomainProcessor.safe_comment d).data =
          DomainProcessor.commentTag.data ++ d.data) ∧
      (63 < (DomainProcessor.commentTag.data ++ d.data).length →
        (DomainProcessor.safe_comment d).length = 63) :=
  C6_comment_truncation.1 (fun _ => ["1.2.3.4"])
    ["aaaaaaaaaaaaaaaaaaaaaaaaaaaaaaaaaaaaaaaaaaaaaaaaaaaaaaaaaaaa.com"]
    ("1.2.3.4", DomainProcessor.safe_comment
      "aaaaaaaaaaaaaaaaaaaaaaaaaaaaaaaaaaaaaaaaaaaaaaaaaaaaaaaaaaaa.com")
    (by decide)

/-- C7: `main` of `generate_fwd_list.py` exits 0 exactly on a fully
successful run and 1 on a fetch or decode failure, an empty extraction, or
a write failure; on a fetch/decode failure (and on empty extraction) no
output file is opened, and in a run that reaches the write, the single
write call receives the fully assembled script. -/
theorem C7_exit_codes (body : Option String) (resolve : String → List String)
    (now : String) (writeOk : Bool) :
    (fetch_and_decode body = none →
      FwdList.pymain body resolve now writeOk = ⟨1, none⟩) ∧
    (∀ content, fetch_and_decode body = some content →
      FwdList.extract_domains content = [] →
      FwdList.pymain body resolve now writeOk = ⟨1, none⟩) ∧
    (∀ content, fetch_and_decode body = some content →
      FwdList.extract_domains content ≠ [] →
      FwdList.pymain body resolve now writeOk =
        ⟨if writeOk then 0 else 1,
          some (FwdList.generate_mikrotik_rsc resolve now
            (FwdList.extract_domains content))⟩) := by
  refine ⟨?_, ?_, ?_⟩
  · intro h
    unfold FwdList.pymain
    simp only [h]
  · intro content hc hext
    unfold FwdList.pymain
    simp only [hc]
    by_cases hempty : content = ""
    · rw [if_pos hempty]
    · rw [if_neg hempty, if_pos hext]
  · intro content hc hext
    have hne : content ≠ "" := by
      intro heq
      subst heq
      exact hext rfl
    unfold FwdList.pymain
    simp only [hc]
    rw [if_neg hne, if_neg hext]
    cases writeOk <;> rfl

/-- C7 witness: a fully successful run (decoded body `a.b\n`) exits 0 and
writes the assembled script; a fetch failure exits 1 with no write. -/
theorem C7_witness :
    FwdList.pymain (some "YS5iCg==") (fun _ => ["9.9.9.9"]) "T" true =
      ⟨if true then 0 else 1,
        some (FwdList.generate_mikrotik_rsc (fun _ => ["9.9.9.9"]) "T"
          (FwdList.extract_domains "a.b\n"))⟩ ∧
    FwdList.pymain none (fun _ => ["9.9.9.9"]) "T" true = ⟨1, none⟩ :=
  ⟨(C7_exit_codes (some "YS5iCg==") (fun _ => ["9.9.9.9"]) "T" true).2.2 "a.b\n" rfl
      (by decide),
    (C7_exit_codes none (fun _ => ["9.9.9.9"]) "T" true).1 rfl⟩

/-- C8: extraction is order-independent (inputs whose line lists are
permutations of each other extract equal sorted lists), its output is
sorted by the Python string order and duplicate-free, and it is idempotent:
re-running the extraction core on its own output reproduces it — for both
variants. -/
theorem C8_extraction_algebra :
    (∀ s1 s2 : String, List.Perm (pySplitlines s1) (pySplitlines s2) →
        DomainProcessor.extract_domains s1 = DomainProcessor.extract_domains s2 ∧
        FwdList.extract_domains s1 = FwdList.extract_domains s2) ∧
    (∀ s : String, (DomainProcessor.extract_domains s).Pairwise strOrd ∧
        (DomainProcessor.extract_domains s).Nodup ∧
        (FwdList.extract_domains s).Pairwise strOrd ∧
        (FwdList.extract_domains s).Nodup) ∧
    (∀ s : String,
        DomainProcessor.extractCore (DomainProcessor.extract_domains s) =
          DomainProcessor.extract_domains s ∧
        FwdList.extractCore (FwdList.extract_domains s) =
          FwdList.extract_domains s) := by
  refine ⟨?_, ?_, ?_⟩
  · intro s1 s2 hp
    exact ⟨sortedDedup_perm_inv (hp.filterMap _), sortedDedup_perm_inv (hp.filterMap _)⟩
  · intro s
    exact ⟨sortedDedup_sorted _, sortedDedup_nodup _,
      sortedDedup_sorted _, sortedDedup_nodup _⟩
  · intro s
    exact ⟨dp_extract_idem s, fl_extract_idem s⟩

/-- C8 witness: swapping the two lines of an input leaves both extraction
results unchanged. -/
theorem C8_witness :
    DomainProcessor.extract_domains "a.b\nc.d" =
      DomainProcessor.extract_domains "c.d\na.b" ∧
    FwdList.extract_domains "a.b\nc.d" = FwdList.extract_domains "c.d\na.b" :=
  C8_extraction_algebra.1 "a.b\nc.d" "c.d\na.b" (by decide)

/-- C9: when extraction is nonempty but every extracted domain resolves to
the empty address set, the `domain_processor.py` run completes with exit
code 0 and writes exactly the header: the comment lines, the
`/ip firewall address-list` line and the `remove [find list=...]` line,
with zero `add` lines (`headerText` is literally that text). -/
theorem C9_empty_resolution (body content : String) (resolve : String → List String)
    (now : String)
    (hc : fetch_and_decode (some body) = some content)
    (hne : DomainProcessor.extract_domains content ≠ [])
    (hres : ∀ d ∈ DomainProcessor.extract_domains content, resolve d = []) :
    DomainProcessor.pymain (some body) resolve now true =
      ⟨0, some (DomainProcessor.headerText now)⟩ := by
  have hcontent : content ≠ "" := by
    intro heq
    subst heq
    exact hne rfl
  have hgen : DomainProcessor.generate_mikrotik_rsc resolve now
      (DomainProcessor.extract_domains content) = DomainProcessor.headerText now := by
    unfold DomainProcessor.generate_mikrotik_rsc
    rw [dp_genPairs_empty resolve _ hres []]
    show DomainProcessor.headerText now ++ String.join [] = DomainProcessor.headerText now
    exact str_append_empty _
  unfold DomainProcessor.pymain
  simp only [hc]
  rw [if_neg hcontent, if_neg hne, if_pos trivial, hgen]

/-- C9 witness: decoded body `a.b\n` extracts one domain; with an
all-empty resolver the run exits 0 and writes the header-only script. -/
theorem C9_witness :
    DomainProcessor.pymain (some "YS5iCg==") (fun _ => []) "T" true =
      ⟨0, some (DomainProcessor.headerText "T")⟩ :=
  C9_empty_resolution "YS5iCg==" "a.b\n" (fun _ => []) "T" rfl (by decide) (by decide)

/-- C10: with the fetched body, the per-domain resolver responses and the
timestamp held fixed, the generated script is identical: the renderer
consults the resolver only on the extracted domains, and both
`extract_domains` and `generate_mikrotik_rsc` are functions of exactly
these inputs — for both variants. -/
theorem C10_determinism (body : String) (r1 r2 : String → List String) (now : String) :
    ((∀ d ∈ DomainProcessor.extract_domains body, r1 d = r2 d) →
      DomainProcessor.generate_mikrotik_rsc r1 now (DomainProcessor.extract_domains body) =
        DomainProcessor.generate_mikrotik_rsc r2 now
          (DomainProcessor.extract_domains body)) ∧
    ((∀ d ∈ FwdList.extract_domains body, r1 d = r2 d) →
      FwdList.generate_mikrotik_rsc r1 now (FwdList.extract_domains body) =
        FwdList.generate_mikrotik_rsc r2 now (FwdList.extract_domains body)) := by
  constructor
  · intro h
    unfold DomainProcessor.generate_mikrotik_rsc
    rw [dp_genPairs_congr _ h []]
  · intro h
    unfold FwdList.generate_mikrotik_rsc
    rw [fl_genPairs_congr _ h []]

/-- C10 witness: two resolvers that agree on the extracted domain of the
body `a.b` produce identical scripts. -/
theorem C10_witness :
    DomainProcessor.generate_mikrotik_rsc
        (fun _ => ["1.1.1.1"]) "T" (DomainProcessor.extract_domains "a.b") =
      DomainProcessor.generate_mikrotik_rsc
        (fun d => if d = "a.b" then ["1.1.1.1"] else ["2.2.2.2"]) "T"
        (DomainProcessor.extract_domains "a.b") :=
  (C10_determinism "a.b" (fun _ => ["1.1.1.1"])
    (fun d => if d = "a.b" then ["1.1.1.1"] else ["2.2.2.2"]) "T").1 (by decide)

end Pipeline
